import Mathlib

/-!
Verification development for the state-delta module of the repository
(`Automation_Examples/state_management.py`).

The Python module is embedded shallowly:

* JSON dictionaries become insertion-ordered association lists
  (`List (κ × α)`); `dict.get`, `dict[k] = v` and `k in dict` become
  `lookupA`, `setA` and `containsA`.  Python dictionaries keep the position
  of an existing key on assignment and append fresh keys, which `setA`
  reproduces.
* An entity's `resources` dictionary is heterogeneous in the source (scalar
  integers next to the `"spell_slots"` sub-dictionary), so resource values
  are an inductive `RVal` (`int` or `table`).  Code paths where Python would
  raise `TypeError`/`AttributeError` on a value of the wrong shape return
  `Except.error`.
* The file system is a record `FS` holding the backing file's parsed content
  (`none` when the file is absent, as for a fresh store) and the backup
  directory.  Clock reads (`datetime.now()`) become an explicit `now : String`
  parameter; I/O failure of the temp-file write and of the atomic rename in
  `_save_state` become explicit boolean oracles `writeOk` / `renameOk`.
* Functions that can raise return `Except String _`; `apply_delta` returns
  the post-call file system and manager alongside the result so that partial
  effects of a raising call stay observable.
* The regular expressions of `parse_state_delta` are compiled by hand into
  deterministic scanners over `List Char` with the same match semantics
  (leftmost block match, greedy character-class runs with the one backtrack
  point the key/`-=` boundary allows).  `\s`, `\d` and `re.IGNORECASE` are
  modelled over ASCII.
-/

/-- First value bound to key `k`, mirroring Python `dict.get(k)` /
`dict[k]`. -/
def lookupA {κ α : Type} [DecidableEq κ] : List (κ × α) → κ → Option α
  | [], _ => none
  | p :: t, k => if p.1 = k then some p.2 else lookupA t k

/-- Python `k in dict`. -/
def containsA {κ α : Type} [DecidableEq κ] (l : List (κ × α)) (k : κ) : Bool :=
  (lookupA l k).isSome

/-- Python `dict[k] = v`: overwrite in place when the key exists, append
otherwise. -/
def setA {κ α : Type} [DecidableEq κ] (l : List (κ × α)) (k : κ) (v : α) :
    List (κ × α) :=
  if containsA l k then l.map (fun p => if p.1 = k then (k, v) else p)
  else l ++ [(k, v)]

/-- A value stored in an entity's `resources` dictionary: a scalar integer
or the `"spell_slots"` level table (string level keys to integers). -/
inductive RVal : Type where
  | int : Int → RVal
  | table : List (String × Int) → RVal
deriving DecidableEq

/-- One entity of the state document: its `resources` dictionary (absent in
malformed documents, hence `Option`) and its `metadata` dictionary. -/
structure Entity : Type where
  resources : Option (List (String × RVal))
  metadata : List (String × String)
deriving DecidableEq

/-- The state document: `entities`, the unused top-level `resources` bucket,
and `metadata` (string-valued entries such as `version`, `last_updated`). -/
structure StateDoc : Type where
  entities : List (String × Entity)
  resources : List (String × RVal)
  metadata : List (String × String)
deriving DecidableEq

/-- The file system visible to the store: the backing file's content
(`none` when absent) and the `backups/state/` directory as a map from
backup file name to copied content. -/
structure FS : Type where
  file : Option StateDoc
  backups : List (String × StateDoc)
deriving DecidableEq

/-- The `StateManager`'s retained in-memory state (`self.state`). -/
structure Manager : Type where
  state : StateDoc
deriving DecidableEq

/-- A delta key `(entity_id, resource_type, level)`. -/
abbrev DKey := String × String × Int

/-- A delta batch: insertion-ordered mapping from delta key to amount. -/
abbrev Batch := List (DKey × Int)

/-- Result dictionary of `apply_delta`. -/
structure ApplyResult : Type where
  state : StateDoc
  changes : List String
  applied : Bool
deriving DecidableEq

/-- `StateManager._load_state`: fresh document when the backing file is
absent; otherwise the parsed file content (the model's file already holds a
parsed document, so the `LoadError` branch for unparseable JSON has no
representation here). -/
def load_state (now : String) (fs : FS) : StateDoc :=
  match fs.file with
  | none =>
    { entities := [], resources := [],
      metadata := [("version", "1.0"), ("last_updated", now)] }
  | some d => d

/-- `StateManager._save_state`: stamp `metadata.last_updated`, write a temp
file, atomically rename it over the target.  `writeOk` / `renameOk` are the
I/O oracles; on either failure the target file is untouched and a
`SaveError` (`ValueError` in the source) is raised. -/
def save_state (now : String) (writeOk renameOk : Bool) (fs : FS)
    (doc : StateDoc) : Except String (FS × StateDoc) :=
  let stamped := { doc with metadata := setA doc.metadata "last_updated" now }
  if writeOk then
    if renameOk then .ok ({ fs with file := some stamped }, stamped)
    else .error "Failed to save state: rename"
  else .error "Failed to save state: write"

/-- `StateManager.create_backup`: `shutil.copy2` of the backing file into
`backups/state/state.<timestamp>.json`; raises `FileNotFoundError` when the
backing file does not exist.  Same-second collisions overwrite. -/
def create_backup (now : String) (fs : FS) : Except String (FS × String) :=
  match fs.file with
  | none => .error "FileNotFoundError"
  | some doc =>
    let name := "state." ++ now ++ ".json"
    .ok ({ fs with backups := setA fs.backups name doc }, name)

/-- `resource_type == "spell_slot" or resource_type.startswith("spell_slot.")`. -/
def isSpellish (rt : String) : Bool :=
  decide (rt = "spell_slot") || "spell_slot.".data.isPrefixOf rt.data

/-- `entity["resources"]["spell_slots"]` read as a level table;
`AttributeError` when the stored value is a scalar (Python `.get` on an
`int`). -/
def slotsOf (rs : List (String × RVal)) : Except String (List (String × Int)) :=
  match lookupA rs "spell_slots" with
  | none => .ok []
  | some (.table m) => .ok m
  | some (.int _) => .error "AttributeError"

/-- `entity["resources"].get(resource_type, 0)` for the scalar branch;
`TypeError` when the stored value is the level table (Python `dict - int`). -/
def scalarValue (rs : List (String × RVal)) (rt : String) : Except String Int :=
  match lookupA rs rt with
  | none => .ok 0
  | some (.int n) => .ok n
  | some (.table _) => .error "TypeError"

/-- Store an entity back with a new `resources` dictionary. -/
def putResources (d : StateDoc) (eid : String) (ent : Entity)
    (rs : List (String × RVal)) : StateDoc :=
  { d with entities := setA d.entities eid { ent with resources := some rs } }

/-- `f"DRY-RUN: {entity_id} {resource_type}: {current} -> {new_value} (subtract {amount})"`. -/
def dryLineScalar (eid rt : String) (cur nv a : Int) : String :=
  "DRY-RUN: " ++ eid ++ " " ++ rt ++ ": " ++ toString cur ++ " -> " ++
    toString nv ++ " (subtract " ++ toString a ++ ")"

/-- `f"{entity_id} {resource_type}: {current} -> {new_value}"`. -/
def realLineScalar (eid rt : String) (cur nv : Int) : String :=
  eid ++ " " ++ rt ++ ": " ++ toString cur ++ " -> " ++ toString nv

/-- `f"DRY-RUN: {entity_id} {resource_type}.{level}: {current} -> {new_value} (subtract {amount})"`. -/
def dryLineSlot (eid rt : String) (lvl cur nv a : Int) : String :=
  "DRY-RUN: " ++ eid ++ " " ++ rt ++ "." ++ toString lvl ++ ": " ++
    toString cur ++ " -> " ++ toString nv ++ " (subtract " ++ toString a ++ ")"

/-- `f"{entity_id} {resource_type}.{level}: {current} -> {new_value}"`. -/
def realLineSlot (eid rt : String) (lvl cur nv : Int) : String :=
  eid ++ " " ++ rt ++ "." ++ toString lvl ++ ": " ++ toString cur ++ " -> " ++
    toString nv

/-- Loop body of `apply_delta` once the entity exists in the working copy,
with the source's local variables `entity` (`ent`) and the ensured
`entity["resources"]` (`rs`) passed explicitly: branch on the resource
type, clamp with `max(0, current - amount)`, record the change line, and
(in real mode only) write the new value. -/
def applyOneCore (dryRun : Bool) (d : StateDoc) (changes : List String)
    (eid rt : String) (lvl amount : Int) (ent : Entity)
    (rs : List (String × RVal)) : Except String (StateDoc × List String) :=
  if isSpellish rt then
    let rs1 := if (lookupA rs "spell_slots").isNone
               then setA rs "spell_slots" (RVal.table []) else rs
    match slotsOf rs1 with
    | .error e => .error e
    | .ok m =>
      let current := (lookupA m (toString lvl)).getD 0
      let nv := max 0 (current - amount)
      if dryRun then
        .ok (putResources d eid ent rs1,
             changes ++ [dryLineSlot eid rt lvl current nv amount])
      else
        .ok (putResources d eid ent
               (setA rs1 "spell_slots" (RVal.table (setA m (toString lvl) nv))),
             changes ++ [realLineSlot eid rt lvl current nv])
  else
    match scalarValue rs rt with
    | .error e => .error e
    | .ok current =>
      let nv := max 0 (current - amount)
      if dryRun then
        .ok (putResources d eid ent rs,
             changes ++ [dryLineScalar eid rt current nv amount])
      else
        .ok (putResources d eid ent (setA rs rt (RVal.int nv)),
             changes ++ [realLineScalar eid rt current nv])

/-- Loop body of `apply_delta` once the entity exists in the working copy:
read `entity` and ensure its `resources` dictionary, then run the core. -/
def applyOneExisting (dryRun : Bool) (d : StateDoc) (changes : List String)
    (eid rt : String) (lvl amount : Int) :
    Except String (StateDoc × List String) :=
  let ent := (lookupA d.entities eid).getD { resources := some [], metadata := [] }
  applyOneCore dryRun d changes eid rt lvl amount ent (ent.resources.getD [])

/-- One iteration of the `apply_delta` loop: create the entity in real mode
when absent; in dry-run mode record a "would create" note and skip the
entry. -/
def applyOne (dryRun : Bool) (acc : StateDoc × List String) (kv : DKey × Int) :
    Except String (StateDoc × List String) :=
  match lookupA acc.1.entities kv.1.1 with
  | none =>
    if dryRun then
      .ok (acc.1, acc.2 ++ ["DRY-RUN: Would create entity " ++ kv.1.1])
    else
      applyOneExisting dryRun
        { acc.1 with
            entities := setA acc.1.entities kv.1.1
              { resources := some [], metadata := [] } }
        acc.2 kv.1.1 kv.1.2.1 kv.1.2.2 kv.2
  | some _ => applyOneExisting dryRun acc.1 acc.2 kv.1.1 kv.1.2.1 kv.1.2.2 kv.2

/-- The `apply_delta` loop over the whole batch, in iteration order. -/
def applyAll (dryRun : Bool) :
    StateDoc × List String → Batch → Except String (StateDoc × List String)
  | acc, [] => .ok acc
  | acc, kv :: rest =>
    match applyOne dryRun acc kv with
    | .error e => .error e
    | .ok acc' => applyAll dryRun acc' rest

/-- `StateManager.apply_delta`.  The loop mutates a deep copy of
`self.state`; in real mode a backup is created, the updated document saved
(which stamps it), and only then is the in-memory state swapped.  The call
returns the post-call file system and manager together with the result
dictionary (or the raised exception). -/
def apply_delta (now : String) (writeOk renameOk : Bool) (fs : FS)
    (mgr : Manager) (deltas : Batch) (dryRun : Bool) :
    FS × Manager × Except String ApplyResult :=
  match applyAll dryRun (mgr.state, []) deltas with
  | .error e => (fs, mgr, .error e)
  | .ok (updated, changes) =>
    if dryRun then (fs, mgr, .ok ⟨mgr.state, changes, false⟩)
    else
      match create_backup now fs with
      | .error e => (fs, mgr, .error e)
      | .ok (fs1, _) =>
        match save_state now writeOk renameOk fs1 updated with
        | .error e => (fs1, mgr, .error e)
        | .ok (fs2, stamped) => (fs2, ⟨stamped⟩, .ok ⟨stamped, changes, true⟩)

/-- `StateManager.get_entity_resources`. -/
def get_entity_resources (mgr : Manager) (eid : String) :
    List (String × RVal) :=
  match lookupA mgr.state.entities eid with
  | none => []
  | some ent => ent.resources.getD []

/-- `StateManager.check_resource_availability`: `available >= amount` with
absent entity / resource read as 0; raises on shape clashes exactly where
the Python attribute access / comparison would. -/
def check_resource_availability (mgr : Manager) (eid rt : String)
    (amount lvl : Int) : Except String Bool :=
  let resources := get_entity_resources mgr eid
  if isSpellish rt then
    match lookupA resources "spell_slots" with
    | some (.int _) => .error "AttributeError"
    | some (.table m) => .ok (decide (amount ≤ (lookupA m (toString lvl)).getD 0))
    | none => .ok (decide (amount ≤ 0))
  else
    match lookupA resources rt with
    | some (.table _) => .error "TypeError"
    | some (.int n) => .ok (decide (amount ≤ n))
    | none => .ok (decide (amount ≤ 0))

/-! ### The `parse_state_delta` text parser -/

/-- ASCII fragment of Python's `\s` class (space, tab, newline, carriage
return, vertical tab, form feed). -/
def isPySpace (c : Char) : Bool :=
  c = ' ' || c = '\t' || c = '\n' || c = '\r' || c = '\x0b' || c = '\x0c'

/-- The character class `[a-zA-Z0-9_\-]` of the `entity` group. -/
def isEntChar (c : Char) : Bool := c.isAlphanum || c = '_' || c = '-'

/-- The character class `[a-zA-Z0-9_\.\-]` of the `key` group. -/
def isKeyChar (c : Char) : Bool := c.isAlphanum || c = '_' || c = '.' || c = '-'

/-- Exact list prefix test (scanner-local, equality on characters). -/
def isPrefixL : List Char → List Char → Bool
  | [], _ => true
  | _ :: _, [] => false
  | a :: as, b :: bs => if a = b then isPrefixL as bs else false

/-- Index of the first occurrence of `pat` in `s` (the `re.search` leftmost
rule for a literal). -/
def findSub (pat : List Char) : List Char → Option Nat
  | [] => if isPrefixL pat [] then some 0 else none
  | c :: t =>
    if isPrefixL pat (c :: t) then some 0
    else (findSub pat t).map (· + 1)

/-- Lower-case a character list (`re.IGNORECASE` over ASCII). -/
def lowerL (s : List Char) : List Char := s.map Char.toLower

/-- Case-insensitive first occurrence. -/
def findCI (pat s : List Char) : Option Nat := findSub (lowerL pat) (lowerL s)

/-- Strip trailing ASCII whitespace (`str.rstrip`). -/
def rstripWS (s : List Char) : List Char := (s.reverse.dropWhile isPySpace).reverse

/-- Strip whitespace from both ends (`str.strip`, and the `\s*` trimming
around the regex `body` group). -/
def trimWS (s : List Char) : List Char :=
  ((s.dropWhile isPySpace).reverse.dropWhile isPySpace).reverse

/-- `"STATE-DELTA"` block opener. -/
def sdPat : List Char := "STATE-DELTA".data

/-- `"END STATE-DELTA"` block closer. -/
def endPat : List Char := "END STATE-DELTA".data

/-- `re.search` of `STATE-DELTA\s*(?P<body>.*?)\s*END STATE-DELTA`
(IGNORECASE, DOTALL): the match starts at the first `STATE-DELTA`
occurrence, the lazy body ends at the first later `END STATE-DELTA`
occurrence, and the `\s*` context strips surrounding whitespace from the
captured group. -/
def extractBody (text : List Char) : Option (List Char) :=
  match findCI sdPat text with
  | none => none
  | some i =>
    let rest := text.drop (i + sdPat.length)
    match findCI endPat rest with
    | none => none
    | some j => some (trimWS (rest.take j))

/-- Tail handler shared by `splitlines`. -/
def splitlinesGo (cur : List Char) : List Char → List (List Char)
  | [] => [cur.reverse]
  | '\r' :: '\n' :: rest =>
    cur.reverse :: (if rest.isEmpty then [] else splitlinesGo [] rest)
  | '\n' :: rest =>
    cur.reverse :: (if rest.isEmpty then [] else splitlinesGo [] rest)
  | '\r' :: rest =>
    cur.reverse :: (if rest.isEmpty then [] else splitlinesGo [] rest)
  | c :: rest => splitlinesGo (c :: cur) rest

/-- Python `str.splitlines` over the common terminators (`\n`, `\r`,
`\r\n`): a trailing terminator yields no empty final line and the empty
string yields no lines. -/
def splitlines (s : List Char) : List (List Char) :=
  if s.isEmpty then [] else splitlinesGo [] s

/-- Digit run to a natural number. -/
def natOfDigits (ds : List Char) : Nat :=
  ds.foldl (fun a c => a * 10 + (c.toNat - 48)) 0

/-- Tail of the line regex after the key: `\s*\-\=` — skip whitespace, then
the literal `-=`. -/
def afterKey (s : List Char) : Option (List Char) :=
  match s.dropWhile isPySpace with
  | '-' :: '=' :: r => some r
  | _ => none

/-- End of the line regex: `\s*(?P<amount>\d+)\s*$`. -/
def finishAmount (rest : List Char) : Option Nat :=
  let r1 := rest.dropWhile isPySpace
  let ds := r1.takeWhile Char.isDigit
  if ds.isEmpty then none
  else
    let r2 := (r1.drop ds.length).dropWhile isPySpace
    if r2.isEmpty then some (natOfDigits ds) else none

/-- `delta_line_pattern.match(line)`:
`^\s*-\s*(?P<entity>[a-zA-Z0-9_\-]+)\s*:\s*(?P<key>[a-zA-Z0-9_\.\-]+)\s*\-\=\s*(?P<amount>\d+)\s*$`.
The greedy character-class runs are deterministic except at the key/`-=`
boundary, where the key class contains `-`: there the engine backtracks at
most one character (a longer backtrack would put a class character where
`-=` must match). -/
def matchDeltaLine (line : List Char) : Option (List Char × List Char × Nat) :=
  match line.dropWhile isPySpace with
  | '-' :: s1 =>
    let s2 := s1.dropWhile isPySpace
    let ent := s2.takeWhile isEntChar
    if ent.isEmpty then none
    else
      match (s2.drop ent.length).dropWhile isPySpace with
      | ':' :: s4 =>
        let s5 := s4.dropWhile isPySpace
        let keyRun := s5.takeWhile isKeyChar
        if keyRun.isEmpty then none
        else
          let s6 := s5.drop keyRun.length
          match afterKey s6 with
          | some r => (finishAmount r).map (fun a => (ent, keyRun, a))
          | none =>
            match s6 with
            | '=' :: s7 =>
              if keyRun.getLast? = some '-' ∧ 2 ≤ keyRun.length then
                (finishAmount s7).map (fun a => (ent, keyRun.dropLast, a))
              else none
            | _ => none
      | _ => none
  | _ => none

/-- Digit group of a Python `int()` literal after the optional sign:
underscores may appear only between digits. -/
def groupRest : List Char → Bool
  | [] => true
  | '_' :: c :: rest => c.isDigit && groupRest rest
  | ['_'] => false
  | c :: rest => c.isDigit && groupRest rest

/-- Non-empty digit group starting with a digit. -/
def validGroup : List Char → Bool
  | [] => false
  | c :: rest => c.isDigit && groupRest rest

/-- Numeric value of a digit group, ignoring grouping underscores. -/
def digitsVal (s : List Char) : Nat := natOfDigits (s.filter (fun c => c ≠ '_'))

/-- Python `int(s)` on strings drawn from the key character class: optional
sign, then digits with underscores between digits; `none` models the
`ValueError` raise. -/
def pyInt : List Char → Option Int
  | '-' :: rest => if validGroup rest then some (-(digitsVal rest : Int)) else none
  | '+' :: rest => if validGroup rest then some ((digitsVal rest : Int)) else none
  | s => if validGroup s then some ((digitsVal s : Int)) else none

/-- `"spell_slot."` key marker. -/
def spellDot : List Char := "spell_slot.".data

/-- What a single body line contributes: `.ok none` when the line is blank
or fails the regex (silently skipped), `.ok (some entry)` when parsed, and
`.error` when the key has the `spell_slot.` marker but its suffix makes
`int()` raise `ValueError`. -/
def lineEntryE (rawLine : List Char) : Except String (Option (DKey × Int)) :=
  let line := rstripWS rawLine
  if (trimWS line).isEmpty then .ok none
  else
    match matchDeltaLine line with
    | none => .ok none
    | some (ent, key0, amount) =>
      let key := lowerL key0
      if isPrefixL spellDot key then
        match pyInt (key.drop spellDot.length) with
        | none => .error "ValueError: invalid literal for int"
        | some lvl => .ok (some ((String.mk ent, "spell_slot", lvl), (amount : Int)))
      else .ok (some ((String.mk ent, String.mk key, 0), (amount : Int)))

/-- `deltas[resource_key] = deltas.get(resource_key, 0) + amount`. -/
def addDelta (b : Batch) (k : DKey) (a : Int) : Batch :=
  setA b k ((lookupA b k).getD 0 + a)

/-- Accumulate one line into the batch. -/
def parseLine (acc : Batch) (rawLine : List Char) : Except String Batch :=
  match lineEntryE rawLine with
  | .error e => .error e
  | .ok none => .ok acc
  | .ok (some (k, a)) => .ok (addDelta acc k a)

/-- The parser's line loop. -/
def parseLinesAcc : Batch → List (List Char) → Except String Batch
  | acc, [] => .ok acc
  | acc, l :: ls =>
    match parseLine acc l with
    | .error e => .error e
    | .ok acc' => parseLinesAcc acc' ls

/-- `parse_state_delta`: extract the first `STATE-DELTA ... END STATE-DELTA`
block (empty batch when absent) and fold its lines. -/
def parse_state_delta (text : String) : Except String Batch :=
  match extractBody text.data with
  | none => .ok []
  | some body => parseLinesAcc [] (splitlines body)

/-- The lines of the first delta block of a text (empty when no block). -/
def blockLines (text : String) : List (List Char) :=
  match extractBody text.data with
  | none => []
  | some body => splitlines body

/-- Does this line make the parser raise (matched line, `spell_slot.` key,
suffix on which `int()` fails)? -/
def lineRaises (l : List Char) : Bool :=
  match lineEntryE l with
  | .error _ => true
  | .ok _ => false

/-- The per-line entries (in order) contributed by a list of body lines,
ignoring skipped and raising lines. -/
def collectEntries (ls : List (List Char)) : List (DKey × Int) :=
  ls.foldr
    (fun l acc =>
      match lineEntryE l with
      | .ok (some e) => e :: acc
      | _ => acc) []

/-- Sum of the amounts of the entries carrying key `k`. -/
def sumKey (k : DKey) : List (DKey × Int) → Int
  | [] => 0
  | p :: t => if p.1 = k then p.2 + sumKey k t else sumKey k t

/-! ### Observation functions and fixtures used by the theorems -/

/-- The mutable location a delta writes: a scalar resource slot or one
level of the `spell_slots` table. -/
inductive Target : Type where
  | scalar (eid rt : String)
  | slot (eid lvlStr : String)
deriving DecidableEq

/-- Location written by a delta key, following the `apply_delta` branch on
the resource type. -/
def targetOf (k : DKey) : Target :=
  if isSpellish k.2.1 then .slot k.1 (toString k.2.2) else .scalar k.1 k.2.1

/-- The `resources` dictionary of an entity, `{}` when the entity or its
`resources` key is absent (the reads `apply_delta` and
`check_resource_availability` perform). -/
def entityRes (d : StateDoc) (eid : String) : List (String × RVal) :=
  match lookupA d.entities eid with
  | none => []
  | some ent => ent.resources.getD []

/-- The entity a target belongs to. -/
def eidOf : Target → String
  | .scalar eid _ => eid
  | .slot eid _ => eid

/-- Current value stored at a target inside one `resources` dictionary,
with the source's default-0 reads; `none` when the stored value has the
wrong shape (where the source raises). -/
def resTargetValue (rs : List (String × RVal)) : Target → Option Int
  | .scalar _ rt =>
    match lookupA rs rt with
    | none => some 0
    | some (.int n) => some n
    | some (.table _) => none
  | .slot _ l =>
    match lookupA rs "spell_slots" with
    | none => some 0
    | some (.table m) => some ((lookupA m l).getD 0)
    | some (.int _) => none

/-- Current value stored at a target of the document. -/
def targetValue (d : StateDoc) (t : Target) : Option Int :=
  resTargetValue (entityRes d (eidOf t)) t

/-- `v` occurs as a resource value (scalar or spell-slot level) in `rs`. -/
def ValInRes (rs : List (String × RVal)) (v : Int) : Prop :=
  (∃ r, (r, RVal.int v) ∈ rs) ∨ (∃ r m l, (r, RVal.table m) ∈ rs ∧ (l, v) ∈ m)

/-- `v` occurs as a resource value of some entity of the document. -/
def ValIn (d : StateDoc) (v : Int) : Prop :=
  ∃ eid ent rs, (eid, ent) ∈ d.entities ∧ ent.resources = some rs ∧ ValInRes rs v

/-- Targets whose observed value the slot-table ensure step cannot disturb
(everything except a scalar read of the `"spell_slots"` key itself). -/
def TvSafe : Target → Prop
  | .scalar _ rt => rt ≠ "spell_slots"
  | .slot _ _ => True

/-- The dry-run change line obtained from a real change line for a given
batch entry: the `DRY-RUN: ` marker plus the trailing subtraction note. -/
def dryOfReal (kv : DKey × Int) (s : String) : String :=
  "DRY-RUN: " ++ s ++ " (subtract " ++ toString kv.2 ++ ")"

/-- Every entity named by the batch already exists in the manager's
state. -/
def entitiesOK (mgr : Manager) (b : Batch) : Bool :=
  b.all (fun kv => (lookupA mgr.state.entities kv.1.1).isSome)

/-- The batch's write targets are pairwise distinct. -/
def targetsDistinct : Batch → Bool
  | [] => true
  | kv :: rest =>
    rest.all (fun kv2 => decide (targetOf kv2.1 ≠ targetOf kv.1)) &&
      targetsDistinct rest

/-- No batch entry names the literal scalar resource `"spell_slots"` (such
an entry would collide with the level table that leveled entries write). -/
def noSlotsName (b : Batch) : Bool :=
  b.all (fun kv => decide (kv.1.2.1 ≠ "spell_slots"))

/-- Fixture: a document whose entity `e1` has scalar resource `ki = 5`. -/
def docKi5 : StateDoc := ⟨[("e1", ⟨some [("ki", RVal.int 5)], []⟩)], [], []⟩

/-- Fixture: file system backing `docKi5`, empty backup directory. -/
def fsKi5 : FS := ⟨some docKi5, []⟩

/-- Fixture: a manager holding `docKi5`. -/
def mgrKi5 : Manager := ⟨docKi5⟩

/-- Fixture: a delta block with the same well-formed line twice. -/
def exDupText : String :=
  "STATE-DELTA\n- e1: rage -= 1\n- e1: rage -= 1\nEND STATE-DELTA"

/-- Fixture: a delta block with a leveled key. -/
def exLevelText : String := "STATE-DELTA\n- e1: spell_slot.2 -= 1\nEND STATE-DELTA"

/-- Fixture: a delta block with the bare key `spell_slot`. -/
def exBareText : String := "STATE-DELTA\n- e1: spell_slot -= 2\nEND STATE-DELTA"

/-- Fixture: a delta block whose key has a non-integer `spell_slot.`
suffix. -/
def exBadSuffixText : String :=
  "STATE-DELTA\n- e1: spell_slot.x -= 1\nEND STATE-DELTA"

/-- Fixture: a delta block with one malformed and one well-formed line. -/
def exSkippedText : String :=
  "STATE-DELTA\n- e1: ???\n- e2: ki -= 2\nEND STATE-DELTA"

/-- One `STATE-DELTA` block around a body. -/
def mkOneBlock (b1 : List Char) : List Char :=
  sdPat ++ '\n' :: b1 ++ '\n' :: endPat

/-- Two consecutive `STATE-DELTA` blocks around two bodies. -/
def mkTwoBlocks (b1 b2 : List Char) : List Char :=
  sdPat ++ '\n' :: b1 ++ '\n' :: endPat ++ '\n' :: sdPat ++ '\n' :: b2 ++ '\n' :: endPat

/-! ### Association-list laws -/

theorem lookupA_some_mem {κ α : Type} [DecidableEq κ] :
    ∀ {l : List (κ × α)} {k : κ} {v : α}, lookupA l k = some v → (k, v) ∈ l := by
  intro l
  induction l with
  | nil => intro k v h; exact absurd h (by simp [lookupA])
  | cons p t ih =>
    intro k v h
    obtain ⟨a, b⟩ := p
    by_cases hk : a = k
    · subst hk
      have h' : b = v := by simpa [lookupA] using h
      subst h'
      exact List.mem_cons_self _ _
    · simp only [lookupA, if_neg hk] at h
      exact List.mem_cons_of_mem _ (ih h)

theorem lookupA_append_left {κ α : Type} [DecidableEq κ] :
    ∀ {l : List (κ × α)} (m : List (κ × α)) {k : κ},
      (lookupA l k).isSome → lookupA (l ++ m) k = lookupA l k := by
  intro l
  induction l with
  | nil => intro m k h; simp [lookupA] at h
  | cons p t ih =>
    intro m k h
    by_cases hk : p.1 = k
    · simp [lookupA, hk]
    · simp only [lookupA, if_neg hk] at h ⊢
      exact ih m h

theorem lookupA_append_right {κ α : Type} [DecidableEq κ] :
    ∀ {l : List (κ × α)} (m : List (κ × α)) {k : κ},
      lookupA l k = none → lookupA (l ++ m) k = lookupA m k := by
  intro l
  induction l with
  | nil => intro m k _; simp
  | cons p t ih =>
    intro m k h
    by_cases hk : p.1 = k
    · simp [lookupA, hk] at h
    · simp only [lookupA, if_neg hk] at h ⊢
      exact ih m h

theorem lookupA_mapset_self {κ α : Type} [DecidableEq κ] (k : κ) (v : α) :
    ∀ {l : List (κ × α)}, (lookupA l k).isSome →
      lookupA (l.map (fun p => if p.1 = k then (k, v) else p)) k = some v := by
  intro l
  induction l with
  | nil => intro h; simp [lookupA] at h
  | cons p t ih =>
    intro h
    by_cases hk : p.1 = k
    · simp [lookupA, hk]
    · simp only [lookupA, if_neg hk] at h
      simp only [List.map_cons, if_neg hk, lookupA, if_neg hk]
      exact ih h

theorem lookupA_mapset_ne {κ α : Type} [DecidableEq κ] (k : κ) (v : α) {k' : κ}
    (hne : k' ≠ k) :
    ∀ (l : List (κ × α)),
      lookupA (l.map (fun p => if p.1 = k then (k, v) else p)) k' = lookupA l k' := by
  intro l
  induction l with
  | nil => simp [lookupA]
  | cons p t ih =>
    by_cases hk : p.1 = k
    · have h1 : ¬ (k = k') := fun h => hne h.symm
      have h2 : ¬ (p.1 = k') := by rw [hk]; exact h1
      simp only [List.map_cons, if_pos hk, lookupA, if_neg h1, if_neg h2]
      exact ih
    · by_cases hk' : p.1 = k'
      · simp only [List.map_cons, if_neg hk, lookupA, if_pos hk']
      · simp only [List.map_cons, if_neg hk, lookupA, if_neg hk']
        exact ih

theorem lookupA_setA_self {κ α : Type} [DecidableEq κ] (l : List (κ × α))
    (k : κ) (v : α) : lookupA (setA l k v) k = some v := by
  unfold setA containsA
  by_cases hc : (lookupA l k).isSome
  · rw [if_pos hc]
    exact lookupA_mapset_self k v hc
  · rw [if_neg hc]
    rw [lookupA_append_right _ (Option.not_isSome_iff_eq_none.mp hc)]
    simp [lookupA]

theorem lookupA_setA_ne {κ α : Type} [DecidableEq κ] (l : List (κ × α))
    (k : κ) (v : α) {k' : κ} (hne : k' ≠ k) :
    lookupA (setA l k v) k' = lookupA l k' := by
  unfold setA containsA
  by_cases hc : (lookupA l k).isSome
  · rw [if_pos hc]
    exact lookupA_mapset_ne k v hne l
  · rw [if_neg hc]
    by_cases hs : (lookupA l k').isSome
    · exact lookupA_append_left _ hs
    · rw [lookupA_append_right _ (Option.not_isSome_iff_eq_none.mp hs),
          Option.not_isSome_iff_eq_none.mp hs]
      simp only [lookupA]
      exact if_neg (fun h => hne h.symm)

theorem mem_setA {κ α : Type} [DecidableEq κ] {l : List (κ × α)} {k : κ}
    {v : α} {p : κ × α} (h : p ∈ setA l k v) : p = (k, v) ∨ p ∈ l := by
  unfold setA at h
  by_cases hc : containsA l k
  · rw [if_pos hc] at h
    obtain ⟨q, hq, hmap⟩ := List.mem_map.mp h
    by_cases hk : q.1 = k
    · rw [if_pos hk] at hmap
      exact Or.inl hmap.symm
    · rw [if_neg hk] at hmap
      exact Or.inr (hmap ▸ hq)
  · rw [if_neg hc] at h
    rcases List.mem_append.mp h with h' | h'
    · exact Or.inr h'
    · exact Or.inl (List.mem_singleton.mp h')

theorem isSome_lookupA_setA {κ α : Type} [DecidableEq κ] (l : List (κ × α))
    (k k' : κ) (v : α) :
    (lookupA (setA l k v) k').isSome = ((lookupA l k').isSome || decide (k' = k)) := by
  by_cases h : k' = k
  · subst h
    rw [lookupA_setA_self]
    simp
  · rw [lookupA_setA_ne l k v h]
    simp [h]

/-! ### Values never introduced negative by `apply_delta` -/

theorem valInRes_setA_int {rs : List (String × RVal)} {k : String} {n v : Int}
    (h : ValInRes (setA rs k (RVal.int n)) v) : v = n ∨ ValInRes rs v := by
  rcases h with ⟨r, hr⟩ | ⟨r, m, l, hr, hl⟩
  · rcases mem_setA hr with he | hm
    · exact Or.inl (RVal.int.inj (congrArg Prod.snd he))
    · exact Or.inr (Or.inl ⟨r, hm⟩)
  · rcases mem_setA hr with he | hm
    · exact absurd (congrArg Prod.snd he) (by simp)
    · exact Or.inr (Or.inr ⟨r, m, l, hm, hl⟩)

theorem valInRes_setA_table {rs : List (String × RVal)} {k : String}
    {m' : List (String × Int)} {v : Int}
    (h : ValInRes (setA rs k (RVal.table m')) v) :
    (∃ l, (l, v) ∈ m') ∨ ValInRes rs v := by
  rcases h with ⟨r, hr⟩ | ⟨r, m, l, hr, hl⟩
  · rcases mem_setA hr with he | hm
    · exact absurd (congrArg Prod.snd he) (by simp)
    · exact Or.inr (Or.inl ⟨r, hm⟩)
  · rcases mem_setA hr with he | hm
    · refine Or.inl ⟨l, ?_⟩
      have hmm : RVal.table m = RVal.table m' := congrArg Prod.snd he
      exact (RVal.table.inj hmm) ▸ hl
    · exact Or.inr (Or.inr ⟨r, m, l, hm, hl⟩)

theorem mem_setA_intTable {m : List (String × Int)} {ls l : String} {n v : Int}
    (h : (l, v) ∈ setA m ls n) : v = n ∨ (l, v) ∈ m := by
  rcases mem_setA h with he | hm
  · exact Or.inl (congrArg Prod.snd he)
  · exact Or.inr hm

theorem valIn_setEnt {d : StateDoc} {k : String} {ent' : Entity} {v : Int}
    (h : ValIn { d with entities := setA d.entities k ent' } v) :
    (∃ rs', ent'.resources = some rs' ∧ ValInRes rs' v) ∨ ValIn d v := by
  obtain ⟨e, en, rs, hmem, hres, hv⟩ := h
  simp only at hmem
  rcases mem_setA hmem with he | hm
  · have h2 : en = ent' := congrArg Prod.snd he
    exact Or.inl ⟨rs, h2 ▸ hres, hv⟩
  · exact Or.inr ⟨e, en, rs, hm, hres, hv⟩

theorem valInRes_entityRead {d : StateDoc} {eid : String} {v : Int}
    (h : ValInRes (((lookupA d.entities eid).getD
      { resources := some [], metadata := [] }).resources.getD []) v) :
    ValIn d v := by
  cases hent : lookupA d.entities eid with
  | none =>
    rw [hent] at h
    rcases h with ⟨r, hr⟩ | ⟨r, m, l, hr, hl⟩ <;> simp at hr
  | some ent =>
    rw [hent] at h
    simp only [Option.getD_some] at h
    cases hres : ent.resources with
    | none =>
      rw [hres] at h
      rcases h with ⟨r, hr⟩ | ⟨r, m, l, hr, hl⟩ <;> simp at hr
    | some rs =>
      rw [hres] at h
      exact ⟨eid, ent, rs, lookupA_some_mem hent, hres, h⟩


/-! ### Symbolic evaluation of one `apply_delta` iteration -/

theorem applyOneCore_spell_none {dryRun : Bool} {d : StateDoc} {c : List String}
    {eid rt : String} {lvl a : Int} {ent : Entity} {rs : List (String × RVal)}
    (hsp : isSpellish rt = true) (hlk : lookupA rs "spell_slots" = none) :
    applyOneCore dryRun d c eid rt lvl a ent rs =
      if dryRun then
        .ok (putResources d eid ent (setA rs "spell_slots" (RVal.table [])),
             c ++ [dryLineSlot eid rt lvl 0 (max 0 (0 - a)) a])
      else
        .ok (putResources d eid ent
               (setA (setA rs "spell_slots" (RVal.table [])) "spell_slots"
                  (RVal.table (setA [] (toString lvl) (max 0 (0 - a))))),
             c ++ [realLineSlot eid rt lvl 0 (max 0 (0 - a))]) := by
  cases dryRun <;>
    simp [applyOneCore, hsp, hlk, slotsOf, lookupA_setA_self, lookupA]

theorem applyOneCore_spell_table {dryRun : Bool} {d : StateDoc} {c : List String}
    {eid rt : String} {lvl a : Int} {ent : Entity} {rs : List (String × RVal)}
    {m : List (String × Int)}
    (hsp : isSpellish rt = true) (hlk : lookupA rs "spell_slots" = some (RVal.table m)) :
    applyOneCore dryRun d c eid rt lvl a ent rs =
      if dryRun then
        .ok (putResources d eid ent rs,
             c ++ [dryLineSlot eid rt lvl ((lookupA m (toString lvl)).getD 0)
                     (max 0 ((lookupA m (toString lvl)).getD 0 - a)) a])
      else
        .ok (putResources d eid ent
               (setA rs "spell_slots"
                  (RVal.table (setA m (toString lvl)
                     (max 0 ((lookupA m (toString lvl)).getD 0 - a))))),
             c ++ [realLineSlot eid rt lvl ((lookupA m (toString lvl)).getD 0)
                     (max 0 ((lookupA m (toString lvl)).getD 0 - a))]) := by
  cases dryRun <;> simp [applyOneCore, hsp, hlk, slotsOf]

theorem applyOneCore_spell_int {dryRun : Bool} {d : StateDoc} {c : List String}
    {eid rt : String} {lvl a : Int} {ent : Entity} {rs : List (String × RVal)}
    {n : Int}
    (hsp : isSpellish rt = true) (hlk : lookupA rs "spell_slots" = some (RVal.int n)) :
    applyOneCore dryRun d c eid rt lvl a ent rs = .error "AttributeError" := by
  simp [applyOneCore, hsp, hlk, slotsOf]

theorem applyOneCore_scalar_none {dryRun : Bool} {d : StateDoc} {c : List String}
    {eid rt : String} {lvl a : Int} {ent : Entity} {rs : List (String × RVal)}
    (hsp : isSpellish rt = false) (hlk : lookupA rs rt = none) :
    applyOneCore dryRun d c eid rt lvl a ent rs =
      if dryRun then
        .ok (putResources d eid ent rs,
             c ++ [dryLineScalar eid rt 0 (max 0 (0 - a)) a])
      else
        .ok (putResources d eid ent (setA rs rt (RVal.int (max 0 (0 - a)))),
             c ++ [realLineScalar eid rt 0 (max 0 (0 - a))]) := by
  cases dryRun <;> simp [applyOneCore, hsp, hlk, scalarValue]

theorem applyOneCore_scalar_int {dryRun : Bool} {d : StateDoc} {c : List String}
    {eid rt : String} {lvl a : Int} {ent : Entity} {rs : List (String × RVal)}
    {n : Int}
    (hsp : isSpellish rt = false) (hlk : lookupA rs rt = some (RVal.int n)) :
    applyOneCore dryRun d c eid rt lvl a ent rs =
      if dryRun then
        .ok (putResources d eid ent rs,
             c ++ [dryLineScalar eid rt n (max 0 (n - a)) a])
      else
        .ok (putResources d eid ent (setA rs rt (RVal.int (max 0 (n - a)))),
             c ++ [realLineScalar eid rt n (max 0 (n - a))]) := by
  cases dryRun <;> simp [applyOneCore, hsp, hlk, scalarValue]

theorem applyOneCore_scalar_table {dryRun : Bool} {d : StateDoc} {c : List String}
    {eid rt : String} {lvl a : Int} {ent : Entity} {rs : List (String × RVal)}
    {m : List (String × Int)}
    (hsp : isSpellish rt = false) (hlk : lookupA rs rt = some (RVal.table m)) :
    applyOneCore dryRun d c eid rt lvl a ent rs = .error "TypeError" := by
  simp [applyOneCore, hsp, hlk, scalarValue]

theorem valInRes_nil {v : Int} (h : ValInRes [] v) : False := by
  rcases h with ⟨r, hr⟩ | ⟨r, m, l, hr, _⟩ <;> simp at hr

theorem applyOneCore_valIn {dryRun : Bool} {d : StateDoc} {c : List String}
    {eid rt : String} {lvl a : Int} {ent : Entity} {rs : List (String × RVal)}
    {d' : StateDoc} {c' : List String}
    (hback : ∀ w : Int, ValInRes rs w → ValIn d w)
    (h : applyOneCore dryRun d c eid rt lvl a ent rs = .ok (d', c')) :
    ∀ v, ValIn d' v → 0 ≤ v ∨ ValIn d v := by
  intro v hv
  by_cases hsp : isSpellish rt = true
  · cases hlk : lookupA rs "spell_slots" with
    | none =>
      rw [applyOneCore_spell_none hsp hlk] at h
      cases dryRun with
      | true =>
        rw [if_pos rfl] at h
        simp only [Except.ok.injEq, Prod.mk.injEq] at h
        obtain ⟨hd, -⟩ := h
        subst hd
        rcases valIn_setEnt hv with ⟨rs', heq, hval⟩ | hin
        · cases Option.some.inj heq
          rcases valInRes_setA_table hval with ⟨l, hl⟩ | hrs
          · simp at hl
          · exact Or.inr (hback v hrs)
        · exact Or.inr hin
      | false =>
        rw [if_neg (by simp)] at h
        simp only [Except.ok.injEq, Prod.mk.injEq] at h
        obtain ⟨hd, -⟩ := h
        subst hd
        rcases valIn_setEnt hv with ⟨rs', heq, hval⟩ | hin
        · cases Option.some.inj heq
          rcases valInRes_setA_table hval with ⟨l, hl⟩ | hrs
          · rcases mem_setA_intTable hl with hveq | hmem
            · exact Or.inl (hveq ▸ le_max_left 0 _)
            · simp at hmem
          · rcases valInRes_setA_table hrs with ⟨l', hl'⟩ | hrs'
            · simp at hl'
            · exact Or.inr (hback v hrs')
        · exact Or.inr hin
    | some rv =>
      cases rv with
      | int n =>
        rw [applyOneCore_spell_int hsp hlk] at h
        simp at h
      | table m =>
        rw [applyOneCore_spell_table hsp hlk] at h
        cases dryRun with
        | true =>
          rw [if_pos rfl] at h
          simp only [Except.ok.injEq, Prod.mk.injEq] at h
          obtain ⟨hd, -⟩ := h
          subst hd
          rcases valIn_setEnt hv with ⟨rs', heq, hval⟩ | hin
          · cases Option.some.inj heq
            exact Or.inr (hback v hval)
          · exact Or.inr hin
        | false =>
          rw [if_neg (by simp)] at h
          simp only [Except.ok.injEq, Prod.mk.injEq] at h
          obtain ⟨hd, -⟩ := h
          subst hd
          rcases valIn_setEnt hv with ⟨rs', heq, hval⟩ | hin
          · cases Option.some.inj heq
            rcases valInRes_setA_table hval with ⟨l, hl⟩ | hrs
            · rcases mem_setA_intTable hl with hveq | hmem
              · exact Or.inl (hveq ▸ le_max_left 0 _)
              · exact Or.inr (hback v (Or.inr
                  ⟨"spell_slots", m, l, lookupA_some_mem hlk, hmem⟩))
            · exact Or.inr (hback v hrs)
          · exact Or.inr hin
  · have hsp' : isSpellish rt = false := by
      cases hb : isSpellish rt
      · rfl
      · exact absurd hb hsp
    cases hlk : lookupA rs rt with
    | none =>
      rw [applyOneCore_scalar_none hsp' hlk] at h
      cases dryRun with
      | true =>
        rw [if_pos rfl] at h
        simp only [Except.ok.injEq, Prod.mk.injEq] at h
        obtain ⟨hd, -⟩ := h
        subst hd
        rcases valIn_setEnt hv with ⟨rs', heq, hval⟩ | hin
        · cases Option.some.inj heq
          exact Or.inr (hback v hval)
        · exact Or.inr hin
      | false =>
        rw [if_neg (by simp)] at h
        simp only [Except.ok.injEq, Prod.mk.injEq] at h
        obtain ⟨hd, -⟩ := h
        subst hd
        rcases valIn_setEnt hv with ⟨rs', heq, hval⟩ | hin
        · cases Option.some.inj heq
          rcases valInRes_setA_int hval with hveq | hrs
          · exact Or.inl (hveq ▸ le_max_left 0 _)
          · exact Or.inr (hback v hrs)
        · exact Or.inr hin
    | some rv =>
      cases rv with
      | table m =>
        rw [applyOneCore_scalar_table hsp' hlk] at h
        simp at h
      | int n =>
        rw [applyOneCore_scalar_int hsp' hlk] at h
        cases dryRun with
        | true =>
          rw [if_pos rfl] at h
          simp only [Except.ok.injEq, Prod.mk.injEq] at h
          obtain ⟨hd, -⟩ := h
          subst hd
          rcases valIn_setEnt hv with ⟨rs', heq, hval⟩ | hin
          · cases Option.some.inj heq
            exact Or.inr (hback v hval)
          · exact Or.inr hin
        | false =>
          rw [if_neg (by simp)] at h
          simp only [Except.ok.injEq, Prod.mk.injEq] at h
          obtain ⟨hd, -⟩ := h
          subst hd
          rcases valIn_setEnt hv with ⟨rs', heq, hval⟩ | hin
          · cases Option.some.inj heq
            rcases valInRes_setA_int hval with hveq | hrs
            · exact Or.inl (hveq ▸ le_max_left 0 _)
            · exact Or.inr (hback v hrs)
          · exact Or.inr hin

theorem applyOneExisting_valIn {dryRun : Bool} {d : StateDoc} {c : List String}
    {eid rt : String} {lvl a : Int} {d' : StateDoc} {c' : List String}
    (h : applyOneExisting dryRun d c eid rt lvl a = .ok (d', c')) :
    ∀ v, ValIn d' v → 0 ≤ v ∨ ValIn d v := by
  unfold applyOneExisting at h
  exact applyOneCore_valIn (fun w hw => valInRes_entityRead hw) h

theorem applyOne_valIn {dryRun : Bool} {acc : StateDoc × List String}
    {kv : DKey × Int} {d' : StateDoc} {c' : List String}
    (h : applyOne dryRun acc kv = .ok (d', c')) :
    ∀ v, ValIn d' v → 0 ≤ v ∨ ValIn acc.1 v := by
  intro v hv
  unfold applyOne at h
  cases hent : lookupA acc.1.entities kv.1.1 with
  | none =>
    rw [hent] at h
    cases dryRun with
    | true =>
      rw [if_pos rfl] at h
      simp only [Except.ok.injEq, Prod.mk.injEq] at h
      obtain ⟨hd, -⟩ := h
      subst hd
      exact Or.inr hv
    | false =>
      rw [if_neg (by simp)] at h
      rcases applyOneExisting_valIn h v hv with hge | hin
      · exact Or.inl hge
      · rcases valIn_setEnt hin with ⟨rs', heq, hval⟩ | hind
        · cases Option.some.inj heq
          exact absurd hval valInRes_nil
        · exact Or.inr hind
  | some ent =>
    rw [hent] at h
    exact applyOneExisting_valIn h v hv

theorem applyAll_valIn {dryRun : Bool} :
    ∀ {b : Batch} {acc : StateDoc × List String} {d' : StateDoc}
      {c' : List String},
      applyAll dryRun acc b = .ok (d', c') →
      ∀ v, ValIn d' v → 0 ≤ v ∨ ValIn acc.1 v := by
  intro b
  induction b with
  | nil =>
    intro acc d' c' h v hv
    simp only [applyAll, Except.ok.injEq] at h
    rw [h]
    exact Or.inr hv
  | cons kv rest ih =>
    intro acc d' c' h v hv
    simp only [applyAll] at h
    cases hstep : applyOne dryRun acc kv with
    | error e => rw [hstep] at h; simp at h
    | ok acc1 =>
      rw [hstep] at h
      obtain ⟨d1, c1⟩ := acc1
      rcases ih h v hv with hge | hin
      · exact Or.inl hge
      · exact applyOne_valIn hstep v hin

theorem entityRes_putResources_self (d : StateDoc) (eid : String) (ent : Entity)
    (rs : List (String × RVal)) :
    entityRes (putResources d eid ent rs) eid = rs := by
  simp [entityRes, putResources, lookupA_setA_self]

theorem entityRes_putResources_ne {e eid : String} (hne : e ≠ eid)
    (d : StateDoc) (ent : Entity) (rs : List (String × RVal)) :
    entityRes (putResources d eid ent rs) e = entityRes d e := by
  simp only [entityRes, putResources]
  rw [lookupA_setA_ne d.entities eid _ hne]

theorem eidOf_targetOf (k : DKey) : eidOf (targetOf k) = k.1 := by
  unfold targetOf
  split <;> rfl

theorem resTargetValue_nil (t : Target) : resTargetValue [] t = some 0 := by
  cases t <;> simp [resTargetValue, lookupA]

theorem entityRes_none {d : StateDoc} {eid : String}
    (hent : lookupA d.entities eid = none) : entityRes d eid = [] := by
  simp [entityRes, hent]

theorem entityRes_some {d : StateDoc} {eid : String} {ent : Entity}
    (hent : lookupA d.entities eid = some ent) :
    entityRes d eid = ent.resources.getD [] := by
  simp [entityRes, hent]

theorem applyOneCore_value {d : StateDoc} {c : List String} {eid rt : String}
    {lvl a : Int} {ent : Entity} {rs : List (String × RVal)}
    {d' : StateDoc} {c' : List String}
    (h : applyOneCore false d c eid rt lvl a ent rs = .ok (d', c')) :
    ∃ cur, resTargetValue rs (targetOf (eid, rt, lvl)) = some cur ∧
      targetValue d' (targetOf (eid, rt, lvl)) = some (max 0 (cur - a)) := by
  by_cases hsp : isSpellish rt = true
  · have htgt : targetOf (eid, rt, lvl) = .slot eid (toString lvl) := by
      simp [targetOf, hsp]
    rw [htgt]
    cases hlk : lookupA rs "spell_slots" with
    | none =>
      rw [applyOneCore_spell_none hsp hlk, if_neg (by simp)] at h
      simp only [Except.ok.injEq, Prod.mk.injEq] at h
      obtain ⟨hd, -⟩ := h
      subst hd
      refine ⟨0, by simp [resTargetValue, hlk], ?_⟩
      simp [targetValue, eidOf, entityRes_putResources_self, resTargetValue,
        lookupA_setA_self]
    | some rv =>
      cases rv with
      | int n =>
        rw [applyOneCore_spell_int hsp hlk] at h
        simp at h
      | table m =>
        rw [applyOneCore_spell_table hsp hlk, if_neg (by simp)] at h
        simp only [Except.ok.injEq, Prod.mk.injEq] at h
        obtain ⟨hd, -⟩ := h
        subst hd
        refine ⟨(lookupA m (toString lvl)).getD 0, by simp [resTargetValue, hlk], ?_⟩
        simp [targetValue, eidOf, entityRes_putResources_self, resTargetValue,
          lookupA_setA_self]
  · have hsp' : isSpellish rt = false := by
      cases hb : isSpellish rt
      · rfl
      · exact absurd hb hsp
    have htgt : targetOf (eid, rt, lvl) = .scalar eid rt := by
      simp [targetOf, hsp']
    rw [htgt]
    cases hlk : lookupA rs rt with
    | none =>
      rw [applyOneCore_scalar_none hsp' hlk, if_neg (by simp)] at h
      simp only [Except.ok.injEq, Prod.mk.injEq] at h
      obtain ⟨hd, -⟩ := h
      subst hd
      refine ⟨0, by simp [resTargetValue, hlk], ?_⟩
      simp [targetValue, eidOf, entityRes_putResources_self, resTargetValue,
        lookupA_setA_self]
    | some rv =>
      cases rv with
      | table m =>
        rw [applyOneCore_scalar_table hsp' hlk] at h
        simp at h
      | int n =>
        rw [applyOneCore_scalar_int hsp' hlk, if_neg (by simp)] at h
        simp only [Except.ok.injEq, Prod.mk.injEq] at h
        obtain ⟨hd, -⟩ := h
        subst hd
        refine ⟨n, by simp [resTargetValue, hlk], ?_⟩
        simp [targetValue, eidOf, entityRes_putResources_self, resTargetValue,
          lookupA_setA_self]

theorem applyOne_value {acc : StateDoc × List String} {kv : DKey × Int}
    {d' : StateDoc} {c' : List String}
    (h : applyOne false acc kv = .ok (d', c')) :
    ∃ cur, targetValue acc.1 (targetOf kv.1) = some cur ∧
      targetValue d' (targetOf kv.1) = some (max 0 (cur - kv.2)) := by
  obtain ⟨⟨eid, rt, lvl⟩, a⟩ := kv
  unfold applyOne at h
  cases hent : lookupA acc.1.entities eid with
  | none =>
    rw [hent] at h
    rw [if_neg (by simp)] at h
    unfold applyOneExisting at h
    simp only [lookupA_setA_self, Option.getD_some] at h
    obtain ⟨cur, hpre, hpost⟩ := applyOneCore_value h
    rw [resTargetValue_nil] at hpre
    cases Option.some.inj hpre
    refine ⟨0, ?_, hpost⟩
    rw [targetValue, eidOf_targetOf]
    rw [entityRes_none hent, resTargetValue_nil]
  | some ent =>
    rw [hent] at h
    unfold applyOneExisting at h
    rw [hent] at h
    simp only [Option.getD_some] at h
    obtain ⟨cur, hpre, hpost⟩ := applyOneCore_value h
    refine ⟨cur, ?_, hpost⟩
    rw [targetValue, eidOf_targetOf]
    rw [entityRes_some hent]
    exact hpre

theorem applyOneCore_shape {dryRun : Bool} {d : StateDoc} {c : List String}
    {eid rt : String} {lvl a : Int} {ent : Entity} {rs : List (String × RVal)}
    {d' : StateDoc} {c' : List String}
    (h : applyOneCore dryRun d c eid rt lvl a ent rs = .ok (d', c')) :
    (∃ rs2, d' = putResources d eid ent rs2) ∧ (∃ line, c' = c ++ [line]) := by
  by_cases hsp : isSpellish rt = true
  · cases hlk : lookupA rs "spell_slots" with
    | none =>
      rw [applyOneCore_spell_none hsp hlk] at h
      cases dryRun with
      | true =>
        rw [if_pos rfl] at h
        simp only [Except.ok.injEq, Prod.mk.injEq] at h
        exact ⟨⟨_, h.1.symm⟩, ⟨_, h.2.symm⟩⟩
      | false =>
        rw [if_neg (by simp)] at h
        simp only [Except.ok.injEq, Prod.mk.injEq] at h
        exact ⟨⟨_, h.1.symm⟩, ⟨_, h.2.symm⟩⟩
    | some rv =>
      cases rv with
      | int n =>
        rw [applyOneCore_spell_int hsp hlk] at h
        simp at h
      | table m =>
        rw [applyOneCore_spell_table hsp hlk] at h
        cases dryRun with
        | true =>
          rw [if_pos rfl] at h
          simp only [Except.ok.injEq, Prod.mk.injEq] at h
          exact ⟨⟨_, h.1.symm⟩, ⟨_, h.2.symm⟩⟩
        | false =>
          rw [if_neg (by simp)] at h
          simp only [Except.ok.injEq, Prod.mk.injEq] at h
          exact ⟨⟨_, h.1.symm⟩, ⟨_, h.2.symm⟩⟩
  · have hsp' : isSpellish rt = false := by
      cases hb : isSpellish rt
      · rfl
      · exact absurd hb hsp
    cases hlk : lookupA rs rt with
    | none =>
      rw [applyOneCore_scalar_none hsp' hlk] at h
      cases dryRun with
      | true =>
        rw [if_pos rfl] at h
        simp only [Except.ok.injEq, Prod.mk.injEq] at h
        exact ⟨⟨_, h.1.symm⟩, ⟨_, h.2.symm⟩⟩
      | false =>
        rw [if_neg (by simp)] at h
        simp only [Except.ok.injEq, Prod.mk.injEq] at h
        exact ⟨⟨_, h.1.symm⟩, ⟨_, h.2.symm⟩⟩
    | some rv =>
      cases rv with
      | table m =>
        rw [applyOneCore_scalar_table hsp' hlk] at h
        simp at h
      | int n =>
        rw [applyOneCore_scalar_int hsp' hlk] at h
        cases dryRun with
        | true =>
          rw [if_pos rfl] at h
          simp only [Except.ok.injEq, Prod.mk.injEq] at h
          exact ⟨⟨_, h.1.symm⟩, ⟨_, h.2.symm⟩⟩
        | false =>
          rw [if_neg (by simp)] at h
          simp only [Except.ok.injEq, Prod.mk.injEq] at h
          exact ⟨⟨_, h.1.symm⟩, ⟨_, h.2.symm⟩⟩

theorem applyOne_metadata {dryRun : Bool} {acc : StateDoc × List String}
    {kv : DKey × Int} {d' : StateDoc} {c' : List String}
    (h : applyOne dryRun acc kv = .ok (d', c')) :
    d'.metadata = acc.1.metadata := by
  unfold applyOne at h
  cases hent : lookupA acc.1.entities kv.1.1 with
  | none =>
    rw [hent] at h
    cases dryRun with
    | true =>
      rw [if_pos rfl] at h
      simp only [Except.ok.injEq, Prod.mk.injEq] at h
      rw [← h.1]
    | false =>
      rw [if_neg (by simp)] at h
      unfold applyOneExisting at h
      obtain ⟨⟨rs2, hd⟩, -⟩ := applyOneCore_shape h
      rw [hd]
      rfl
  | some ent =>
    rw [hent] at h
    unfold applyOneExisting at h
    obtain ⟨⟨rs2, hd⟩, -⟩ := applyOneCore_shape h
    rw [hd]
    rfl

theorem applyAll_metadata {dryRun : Bool} :
    ∀ {b : Batch} {acc : StateDoc × List String} {d' : StateDoc}
      {c' : List String},
      applyAll dryRun acc b = .ok (d', c') → d'.metadata = acc.1.metadata := by
  intro b
  induction b with
  | nil =>
    intro acc d' c' h
    simp only [applyAll, Except.ok.injEq] at h
    rw [h]
  | cons kv rest ih =>
    intro acc d' c' h
    simp only [applyAll] at h
    cases hstep : applyOne dryRun acc kv with
    | error e => rw [hstep] at h; simp at h
    | ok acc1 =>
      rw [hstep] at h
      obtain ⟨d1, c1⟩ := acc1
      rw [ih h]
      exact applyOne_metadata hstep

theorem save_state_ok {now : String} {writeOk renameOk : Bool} {fs : FS}
    {doc : StateDoc} {fs' : FS} {d' : StateDoc}
    (h : save_state now writeOk renameOk fs doc = .ok (fs', d')) :
    d' = { doc with metadata := setA doc.metadata "last_updated" now } ∧
    fs' = { fs with file := some d' } := by
  unfold save_state at h
  cases writeOk with
  | false => simp at h
  | true =>
    cases renameOk with
    | false => simp at h
    | true =>
      rw [if_pos rfl, if_pos rfl] at h
      simp only [Except.ok.injEq, Prod.mk.injEq] at h
      obtain ⟨hfs, hd⟩ := h
      subst hd
      exact ⟨rfl, hfs.symm⟩

theorem create_backup_ok {now : String} {fs fs' : FS} {name : String}
    (h : create_backup now fs = .ok (fs', name)) : fs'.file = fs.file := by
  unfold create_backup at h
  cases hf : fs.file with
  | none => rw [hf] at h; simp at h
  | some doc =>
    rw [hf] at h
    simp only [Except.ok.injEq, Prod.mk.injEq] at h
    rw [← h.1]

/-- Claim C5: for every store state and every delta batch, `apply_delta`
with `dry_run = True` changes neither the on-disk backing file nor the
backup directory nor the store's retained in-memory state: the post-call
file system and manager equal their pre-call values (no save or backup
occurs). -/
theorem C5_dry_run_frame (now : String) (writeOk renameOk : Bool) (fs : FS)
    (mgr : Manager) (deltas : Batch) :
    (apply_delta now writeOk renameOk fs mgr deltas true).1 = fs ∧
    (apply_delta now writeOk renameOk fs mgr deltas true).2.1 = mgr := by
  cases happ : applyAll true (mgr.state, []) deltas with
  | error e => constructor <;> simp [apply_delta, happ]
  | ok acc =>
    obtain ⟨u, ch⟩ := acc
    constructor <;> simp [apply_delta, happ]

/-- Claim C6: real-mode `apply_delta` is atomic with respect to failure:
whenever it raises (in particular when `_save_state` fails on the temp-file
write or the rename), the store's in-memory state is unchanged and the
backing file's content is untouched. -/
theorem C6_save_failure_atomic (now : String) (writeOk renameOk : Bool)
    (fs : FS) (mgr : Manager) (deltas : Batch) (e : String)
    (h : (apply_delta now writeOk renameOk fs mgr deltas false).2.2 = .error e) :
    (apply_delta now writeOk renameOk fs mgr deltas false).2.1 = mgr ∧
    (apply_delta now writeOk renameOk fs mgr deltas false).1.file = fs.file := by
  cases happ : applyAll false (mgr.state, []) deltas with
  | error e' => constructor <;> simp [apply_delta, happ]
  | ok acc =>
    obtain ⟨u, ch⟩ := acc
    cases hb : create_backup now fs with
    | error e' => constructor <;> simp [apply_delta, happ, hb]
    | ok p =>
      obtain ⟨fs1, name⟩ := p
      cases hs : save_state now writeOk renameOk fs1 u with
      | error e' =>
        refine ⟨by simp [apply_delta, happ, hb, hs], ?_⟩
        have hfile := create_backup_ok hb
        simp [apply_delta, happ, hb, hs, hfile]
      | ok q =>
        obtain ⟨fs2, st⟩ := q
        exfalso
        simp [apply_delta, happ, hb, hs] at h

/-- Claim C4 (code bug): starting from a store whose backing file is absent
(freshly initialized empty state), the real-mode `apply_delta` of the batch
`{("e1", "ki", 0) ↦ 3}` does not succeed: `create_backup` tries to copy the
nonexistent backing file and raises `FileNotFoundError`, so no entity is
persisted and no backup file is produced — the file system and the
in-memory state are returned unchanged, with the raised error. -/
theorem C4_fresh_store_real_apply_raises :
    apply_delta "T1" true true ⟨none, []⟩ ⟨load_state "T0" ⟨none, []⟩⟩
        [(("e1", "ki", 0), 3)] false =
      (⟨none, []⟩, ⟨load_state "T0" ⟨none, []⟩⟩, .error "FileNotFoundError") := by
  rfl

/-- Claim C7 (counterexample): a successful save whose persisted document
lacks `metadata.version`.  Starting from a document whose metadata
dictionary is empty (loadable, since `_load_state` does not validate), a
real `apply_delta` with an empty batch saves successfully, and the
persisted metadata carries `last_updated` but no `version`. -/
theorem C7_counterexample :
    (apply_delta "T" true true ⟨some ⟨[], [], []⟩, []⟩ ⟨⟨[], [], []⟩⟩ [] false).2.2 =
      .ok ⟨⟨[], [], [("last_updated", "T")]⟩, [], true⟩ ∧
    (apply_delta "T" true true ⟨some ⟨[], [], []⟩, []⟩ ⟨⟨[], [], []⟩⟩ [] false).1.file =
      some ⟨[], [], [("last_updated", "T")]⟩ ∧
    lookupA ((⟨[], [], [("last_updated", "T")]⟩ : StateDoc).metadata) "version" = none := by
  refine ⟨rfl, rfl, rfl⟩

/-- Claim C7 (amended): after every save that a non-dry-run `apply_delta`
performs successfully, the persisted document's metadata contains
`last_updated` (stamped with the save time); it contains `version` exactly
when the pre-call document's metadata did — `_save_state` stamps only
`last_updated` and never adds `version`.  The persisted file holds exactly
the document that becomes the new in-memory state. -/
theorem C7_save_metadata_amended (now : String) (writeOk renameOk : Bool)
    (fs : FS) (mgr : Manager) (deltas : Batch) (r : ApplyResult)
    (h : (apply_delta now writeOk renameOk fs mgr deltas false).2.2 = .ok r) :
    lookupA r.state.metadata "last_updated" = some now ∧
    lookupA r.state.metadata "version" = lookupA mgr.state.metadata "version" ∧
    (apply_delta now writeOk renameOk fs mgr deltas false).1.file = some r.state := by
  cases happ : applyAll false (mgr.state, []) deltas with
  | error e' => simp [apply_delta, happ] at h
  | ok acc =>
    obtain ⟨u, ch⟩ := acc
    cases hb : create_backup now fs with
    | error e' => simp [apply_delta, happ, hb] at h
    | ok p =>
      obtain ⟨fs1, name⟩ := p
      cases hs : save_state now writeOk renameOk fs1 u with
      | error e' => simp [apply_delta, happ, hb, hs] at h
      | ok q =>
        obtain ⟨fs2, st⟩ := q
        obtain ⟨hst, hfs2⟩ := save_state_ok hs
        have hr : r = ⟨st, ch, true⟩ := by
          simp [apply_delta, happ, hb, hs] at h
          exact h.symm
        have hmeta : u.metadata = mgr.state.metadata := applyAll_metadata happ
        subst hr
        subst hst
        refine ⟨?_, ?_, ?_⟩
        · exact lookupA_setA_self u.metadata "last_updated" now
        · rw [show ({ u with metadata := setA u.metadata "last_updated" now } :
              StateDoc).metadata = setA u.metadata "last_updated" now from rfl]
          rw [lookupA_setA_ne u.metadata "last_updated" now (by decide), hmeta]
        · have : (apply_delta now writeOk renameOk fs mgr deltas false).1 = fs2 := by
            simp [apply_delta, happ, hb, hs]
          rw [this, hfs2]

/-- Claim C1: for every state document, delta batch and mode, whenever
`apply_delta` returns, every resource value of the resulting document is
non-negative unless it already occurred in the pre-call document (each
written value is clamped, so no resource value is ever left negative by
`apply_delta`); and for a single-entry real-mode batch the resulting value
at the written location is exactly `max 0 (current - amount)` with the
current value read as 0 when the resource or spell-slot level is absent. -/
theorem C1_apply_delta_clamps :
    (∀ (now : String) (writeOk renameOk : Bool) (fs : FS) (mgr : Manager)
       (deltas : Batch) (dryRun : Bool) (r : ApplyResult),
       (apply_delta now writeOk renameOk fs mgr deltas dryRun).2.2 = .ok r →
       ∀ v : Int, ValIn r.state v → 0 ≤ v ∨ ValIn mgr.state v) ∧
    (∀ (now : String) (writeOk renameOk : Bool) (fs : FS) (mgr : Manager)
       (eid rt : String) (lvl a : Int) (r : ApplyResult),
       (apply_delta now writeOk renameOk fs mgr [((eid, rt, lvl), a)] false).2.2 = .ok r →
       ∃ cur, targetValue mgr.state (targetOf (eid, rt, lvl)) = some cur ∧
         targetValue r.state (targetOf (eid, rt, lvl)) = some (max 0 (cur - a))) := by
  constructor
  · intro now writeOk renameOk fs mgr deltas dryRun r h v hv
    cases happ : applyAll dryRun (mgr.state, []) deltas with
    | error e => simp [apply_delta, happ] at h
    | ok acc =>
      obtain ⟨u, ch⟩ := acc
      cases dryRun with
      | true =>
        simp [apply_delta, happ] at h
        rw [← h] at hv
        exact Or.inr hv
      | false =>
        cases hb : create_backup now fs with
        | error e' => simp [apply_delta, happ, hb] at h
        | ok p =>
          obtain ⟨fs1, name⟩ := p
          cases hs : save_state now writeOk renameOk fs1 u with
          | error e' => simp [apply_delta, happ, hb, hs] at h
          | ok q =>
            obtain ⟨fs2, st⟩ := q
            obtain ⟨hst, -⟩ := save_state_ok hs
            have hr : r = ⟨st, ch, true⟩ := by
              simp [apply_delta, happ, hb, hs] at h
              exact h.symm
            subst hr
            subst hst
            exact applyAll_valIn happ v hv
  · intro now writeOk renameOk fs mgr eid rt lvl a r h
    cases happ : applyAll false (mgr.state, []) [((eid, rt, lvl), a)] with
    | error e => simp [apply_delta, happ] at h
    | ok acc =>
      obtain ⟨u, ch⟩ := acc
      cases hb : create_backup now fs with
      | error e' => simp [apply_delta, happ, hb] at h
      | ok p =>
        obtain ⟨fs1, name⟩ := p
        cases hs : save_state now writeOk renameOk fs1 u with
        | error e' => simp [apply_delta, happ, hb, hs] at h
        | ok q =>
          obtain ⟨fs2, st⟩ := q
          obtain ⟨hst, -⟩ := save_state_ok hs
          have hr : r = ⟨st, ch, true⟩ := by
            simp [apply_delta, happ, hb, hs] at h
            exact h.symm
          subst hr
          subst hst
          simp only [applyAll] at happ
          cases hstep : applyOne false (mgr.state, []) ((eid, rt, lvl), a) with
          | error e' => rw [hstep] at happ; simp at happ
          | ok acc1 =>
            rw [hstep] at happ
            obtain ⟨d1, c1⟩ := acc1
            simp only [applyAll, Except.ok.injEq, Prod.mk.injEq] at happ
            obtain ⟨hd1, -⟩ := happ
            obtain ⟨cur, hpre, hpost⟩ := applyOne_value hstep
            subst hd1
            exact ⟨cur, hpre, hpost⟩

theorem applyOne_spell_scalar_frame {acc : StateDoc × List String}
    {eid rt : String} {lvl a : Int} {d' : StateDoc} {c' : List String}
    (hsp : isSpellish rt = true)
    (h : applyOne false acc ((eid, rt, lvl), a) = .ok (d', c')) :
    ∀ rt' : String, rt' ≠ "spell_slots" →
      lookupA (entityRes d' eid) rt' = lookupA (entityRes acc.1 eid) rt' := by
  intro rt' hne
  unfold applyOne at h
  cases hent : lookupA acc.1.entities eid with
  | none =>
    rw [hent] at h
    rw [if_neg (by simp)] at h
    unfold applyOneExisting at h
    simp only [lookupA_setA_self, Option.getD_some] at h
    rw [applyOneCore_spell_none hsp (by simp [lookupA]), if_neg (by simp)] at h
    simp only [Except.ok.injEq, Prod.mk.injEq] at h
    obtain ⟨hd, -⟩ := h
    subst hd
    rw [entityRes_putResources_self, entityRes_none hent]
    rw [lookupA_setA_ne _ _ _ hne, lookupA_setA_ne _ _ _ hne]
  | some ent =>
    rw [hent] at h
    unfold applyOneExisting at h
    rw [hent] at h
    simp only [Option.getD_some] at h
    cases hlk : lookupA (ent.resources.getD []) "spell_slots" with
    | none =>
      rw [applyOneCore_spell_none hsp hlk, if_neg (by simp)] at h
      simp only [Except.ok.injEq, Prod.mk.injEq] at h
      obtain ⟨hd, -⟩ := h
      subst hd
      rw [entityRes_putResources_self, entityRes_some hent]
      rw [lookupA_setA_ne _ _ _ hne, lookupA_setA_ne _ _ _ hne]
    | some rv =>
      cases rv with
      | int n =>
        rw [applyOneCore_spell_int hsp hlk] at h
        simp at h
      | table m =>
        rw [applyOneCore_spell_table hsp hlk, if_neg (by simp)] at h
        simp only [Except.ok.injEq, Prod.mk.injEq] at h
        obtain ⟨hd, -⟩ := h
        subst hd
        rw [entityRes_putResources_self, entityRes_some hent]
        rw [lookupA_setA_ne _ _ _ hne]

/-- Claim C9: a bare `spell_slot` key (no dot) parses to resource type
`spell_slot` with level 0; a real-mode `apply_delta` iteration for such a
delta routes the update to the leveled structure
`resources.spell_slots["0"]` (clamped subtraction there) and leaves every
scalar resource entry — in particular one named `spell_slot` — unchanged;
and `check_resource_availability` reads the same leveled slot for that
resource type. -/
theorem C9_bare_spell_slot_is_leveled :
    (parse_state_delta exBareText = .ok [(("e1", "spell_slot", 0), 2)]) ∧
    (∀ (acc : StateDoc × List String) (eid : String) (a : Int)
       (d' : StateDoc) (c' : List String),
       applyOne false acc ((eid, "spell_slot", 0), a) = .ok (d', c') →
       (∃ cur, targetValue acc.1 (Target.slot eid "0") = some cur ∧
          targetValue d' (Target.slot eid "0") = some (max 0 (cur - a))) ∧
       (∀ rt' : String, rt' ≠ "spell_slots" →
          lookupA (entityRes d' eid) rt' = lookupA (entityRes acc.1 eid) rt')) ∧
    (∀ (mgr : Manager) (eid : String) (a lvl cur : Int),
       targetValue mgr.state (Target.slot eid (toString lvl)) = some cur →
       check_resource_availability mgr eid "spell_slot" a lvl = .ok (decide (a ≤ cur))) := by
  refine ⟨by rfl, ?_, ?_⟩
  · intro acc eid a d' c' h
    have htgt : targetOf (eid, "spell_slot", 0) = Target.slot eid "0" := by
      simp [targetOf, isSpellish]
      rfl
    constructor
    · obtain ⟨cur, hpre, hpost⟩ := applyOne_value h
      rw [htgt] at hpre hpost
      exact ⟨cur, hpre, hpost⟩
    · exact applyOne_spell_scalar_frame (by decide) h
  · intro mgr eid a lvl cur hcur
    unfold check_resource_availability
    rw [if_pos (by decide : isSpellish "spell_slot" = true)]
    rw [targetValue] at hcur
    have hres : entityRes mgr.state (eidOf (Target.slot eid (toString lvl))) =
        get_entity_resources mgr eid := rfl
    rw [hres] at hcur
    cases hlk : lookupA (get_entity_resources mgr eid) "spell_slots" with
    | none =>
      rw [resTargetValue, hlk] at hcur
      cases Option.some.inj hcur
      rfl
    | some rv =>
      cases rv with
      | int n =>
        rw [resTargetValue, hlk] at hcur
        simp at hcur
      | table m =>
        rw [resTargetValue, hlk] at hcur
        cases Option.some.inj hcur
        rfl

/-- Claim C2 (counterexample): `parse_state_delta` raises on a block line
whose key matches the line pattern but has a non-integer `spell_slot.`
suffix — the line is not silently skipped; `int()` raises `ValueError`,
which propagates out of the parser. -/
theorem C2_counterexample :
    parse_state_delta exBadSuffixText = .error "ValueError: invalid literal for int" := by
  rfl

theorem parseLinesAcc_ok_of_no_raise :
    ∀ (ls : List (List Char)) (acc : Batch),
      (∀ l ∈ ls, lineRaises l = false) →
      ∃ b, parseLinesAcc acc ls = .ok b := by
  intro ls
  induction ls with
  | nil => intro acc _; exact ⟨acc, rfl⟩
  | cons l t ih =>
    intro acc hok
    have hl : lineRaises l = false := hok l (List.mem_cons_self _ _)
    cases he : lineEntryE l with
    | error e =>
      exfalso
      rw [lineRaises, he] at hl
      simp at hl
    | ok o =>
      cases o with
      | none =>
        obtain ⟨b, hb⟩ := ih acc (fun l' hl' => hok l' (List.mem_cons_of_mem _ hl'))
        refine ⟨b, ?_⟩
        simp only [parseLinesAcc, parseLine, he]
        exact hb
      | some e =>
        obtain ⟨e1, e2⟩ := e
        obtain ⟨b, hb⟩ := ih (addDelta acc e1 e2)
          (fun l' hl' => hok l' (List.mem_cons_of_mem _ hl'))
        refine ⟨b, ?_⟩
        simp only [parseLinesAcc, parseLine, he]
        exact hb

theorem parseLinesAcc_filter_skipped :
    ∀ (ls : List (List Char)) (acc : Batch),
      parseLinesAcc acc ls =
        parseLinesAcc acc (ls.filter (fun l =>
          match lineEntryE l with
          | .ok none => false
          | _ => true)) := by
  intro ls
  induction ls with
  | nil => intro acc; rfl
  | cons l t ih =>
    intro acc
    cases he : lineEntryE l with
    | error e =>
      simp only [List.filter_cons, he]
      simp only [parseLinesAcc, parseLine, he]
    | ok o =>
      cases o with
      | none =>
        simp only [List.filter_cons, he]
        simp only [parseLinesAcc, parseLine, he]
        exact ih acc
      | some e =>
        simp only [List.filter_cons, he]
        simp only [parseLinesAcc, parseLine, he]
        exact ih (addDelta acc e.1 e.2)

/-- Claim C2 (amended): `parse_state_delta` raises only through the
`spell_slot.` level parse: for every input text all of whose block lines
avoid a matched key `spell_slot.<suffix>` with a suffix `int()` rejects,
the parser returns a batch without raising; and block lines that do not
match the line pattern (or are blank) contribute nothing — filtering them
out of the line list leaves the parse unchanged (silently skipped). -/
theorem C2_no_raise_amended :
    (∀ text : String,
       ((blockLines text).all (fun l => ! lineRaises l)) = true →
       ∃ b, parse_state_delta text = .ok b) ∧
    (∀ (ls : List (List Char)) (acc : Batch),
       parseLinesAcc acc ls =
         parseLinesAcc acc (ls.filter (fun l =>
           match lineEntryE l with
           | .ok none => false
           | _ => true))) := by
  constructor
  · intro text hok
    unfold parse_state_delta
    unfold blockLines at hok
    cases hex : extractBody text.data with
    | none => exact ⟨[], rfl⟩
    | some body =>
      rw [hex] at hok
      refine parseLinesAcc_ok_of_no_raise _ _ ?_
      intro l hl
      have := List.all_eq_true.mp hok l hl
      simpa using this
  · exact parseLinesAcc_filter_skipped

theorem lookupA_addDelta_self (b : Batch) (k : DKey) (a : Int) :
    (lookupA (addDelta b k a) k).getD 0 = (lookupA b k).getD 0 + a := by
  unfold addDelta
  rw [lookupA_setA_self]
  rfl

theorem lookupA_addDelta_ne (b : Batch) (k : DKey) (a : Int) {k' : DKey}
    (hne : k' ≠ k) : lookupA (addDelta b k a) k' = lookupA b k' := by
  unfold addDelta
  exact lookupA_setA_ne b k _ hne

theorem parseLinesAcc_sum :
    ∀ (ls : List (List Char)) (acc : Batch) (b : Batch),
      parseLinesAcc acc ls = .ok b →
      ∀ k : DKey, (lookupA b k).getD 0 =
        (lookupA acc k).getD 0 + sumKey k (collectEntries ls) := by
  intro ls
  induction ls with
  | nil =>
    intro acc b h k
    simp only [parseLinesAcc, Except.ok.injEq] at h
    subst h
    simp [collectEntries, sumKey]
  | cons l t ih =>
    intro acc b h k
    cases he : lineEntryE l with
    | error e =>
      simp only [parseLinesAcc, parseLine, he] at h
      exact absurd h (by simp)
    | ok o =>
      cases o with
      | none =>
        simp only [parseLinesAcc, parseLine, he] at h
        have hcoll : collectEntries (l :: t) = collectEntries t := by
          simp [collectEntries, he]
        rw [hcoll]
        exact ih acc b h k
      | some e =>
        obtain ⟨k', a'⟩ := e
        simp only [parseLinesAcc, parseLine, he] at h
        have hcoll : collectEntries (l :: t) = (k', a') :: collectEntries t := by
          simp [collectEntries, he]
        rw [hcoll]
        have hrec := ih (addDelta acc k' a') b h k
        by_cases hk : k' = k
        · subst hk
          rw [hrec, lookupA_addDelta_self]
          simp only [sumKey, Prod.fst, Prod.snd, eq_self_iff_true, if_true]
          omega
        · rw [hrec, lookupA_addDelta_ne acc k' a' (fun hh => hk hh.symm)]
          have : sumKey k ((k', a') :: collectEntries t) = sumKey k (collectEntries t) := by
            simp [sumKey, hk]
          rw [this]

/-- Claim C8: duplicate `(entity, resource_type, level)` keys among the
well-formed lines of a STATE-DELTA block accumulate by integer summation —
the batch's amount at each key equals the sum of the amounts of the block's
parsed line entries with that key; in particular `- e1: rage -= 1` twice
yields `{(e1, "rage", 0) ↦ 2}`, and `- e1: spell_slot.2 -= 1` yields the
key `(e1, "spell_slot", 2)` mapped to 1. -/
theorem C8_duplicate_keys_accumulate :
    (∀ (text : String) (b : Batch), parse_state_delta text = .ok b →
       ∀ k : DKey, (lookupA b k).getD 0 = sumKey k (collectEntries (blockLines text))) ∧
    parse_state_delta exDupText = .ok [(("e1", "rage", 0), 2)] ∧
    parse_state_delta exLevelText = .ok [(("e1", "spell_slot", 2), 1)] := by
  refine ⟨?_, by rfl, by rfl⟩
  intro text b h k
  unfold parse_state_delta at h
  unfold blockLines
  cases hex : extractBody text.data with
  | none =>
    rw [hex] at h
    simp only [Except.ok.injEq] at h
    subst h
    simp [lookupA, collectEntries, sumKey]
  | some body =>
    rw [hex] at h
    have := parseLinesAcc_sum (splitlines body) [] b h k
    rw [this]
    simp [lookupA]

/-! ### First-block extraction for two-block texts -/

theorem isPrefixL_append_self : ∀ (p r : List Char), isPrefixL p (p ++ r) = true := by
  intro p
  induction p with
  | nil => intro r; rfl
  | cons c t ih =>
    intro r
    simp only [List.cons_append, isPrefixL, if_pos rfl]
    exact ih r

theorem isPrefixL_of_le_append : ∀ {p u : List Char} (v : List Char),
    isPrefixL p (u ++ v) = true → p.length ≤ u.length → isPrefixL p u = true := by
  intro p
  induction p with
  | nil => intro u v _ _; rfl
  | cons c t ih =>
    intro u v h hlen
    cases u with
    | nil => simp at hlen
    | cons b bs =>
      simp only [List.cons_append, isPrefixL] at h ⊢
      by_cases hc : c = b
      · rw [if_pos hc] at h ⊢
        exact ih v h (by simpa using hlen)
      · rw [if_neg hc] at h
        exact absurd h (by simp)

theorem isPrefixL_cross : ∀ {p u : List Char} {c : Char} {v : List Char},
    isPrefixL p (u ++ c :: v) = true → u.length < p.length → c ∈ p := by
  intro p
  induction p with
  | nil => intro u c v _ hlen; simp at hlen
  | cons a t ih =>
    intro u c v h hlen
    cases u with
    | nil =>
      simp only [List.nil_append, isPrefixL] at h
      by_cases hc : a = c
      · exact hc ▸ List.mem_cons_self _ _
      · rw [if_neg hc] at h
        exact absurd h (by simp)
    | cons b bs =>
      simp only [List.cons_append, isPrefixL] at h
      by_cases hc : a = b
      · rw [if_pos hc] at h
        exact List.mem_cons_of_mem _ (ih h (by simpa using hlen))
      · rw [if_neg hc] at h
        exact absurd h (by simp)

theorem isPrefixL_cons_ne {a b : Char} (as bs : List Char) (h : a ≠ b) :
    isPrefixL (a :: as) (b :: bs) = false := by
  simp [isPrefixL, h]

theorem findSub_here {p s : List Char} (h : isPrefixL p s = true) :
    findSub p s = some 0 := by
  cases s with
  | nil => simp [findSub, h]
  | cons c t => simp [findSub, h]

theorem findSub_shift : ∀ (xs : List Char) (ys p : List Char),
    (∀ i, i < xs.length → isPrefixL p ((xs ++ ys).drop i) = false) →
    findSub p (xs ++ ys) = (findSub p ys).map (· + xs.length) := by
  intro xs
  induction xs with
  | nil =>
    intro ys p _
    cases h : findSub p ys <;> simp [h]
  | cons c t ih =>
    intro ys p hno
    have h0 : isPrefixL p (c :: (t ++ ys)) = false := by
      have := hno 0 (by simp)
      simpa using this
    have hstep : findSub p ((c :: t) ++ ys) =
        if isPrefixL p (c :: (t ++ ys)) = true then some 0
        else (findSub p (t ++ ys)).map (· + 1) := rfl
    rw [hstep, h0]
    simp only [Bool.false_eq_true, if_false]
    rw [ih ys p (fun i hi => by
      have := hno (i + 1) (by simpa using hi)
      simpa using this)]
    cases h2 : findSub p ys <;> simp [List.length_cons, Nat.add_assoc]

theorem findSub_none_forall : ∀ {p s : List Char}, findSub p s = none →
    ∀ i, isPrefixL p (s.drop i) = false := by
  intro p s
  induction s with
  | nil =>
    intro h i
    simp only [findSub] at h
    cases hp : isPrefixL p [] with
    | true => rw [hp] at h; simp at h
    | false =>
      rw [List.drop_nil]
      exact hp
  | cons c t ih =>
    intro h i
    simp only [findSub] at h
    cases hp : isPrefixL p (c :: t) with
    | true => rw [hp] at h; simp at h
    | false =>
      rw [hp] at h
      simp only [Bool.false_eq_true, if_false] at h
      have ht : findSub p t = none := by
        cases hft : findSub p t
        · rfl
        · rw [hft] at h; simp at h
      cases i with
      | zero => exact hp
      | succ j =>
        rw [List.drop_succ_cons]
        exact ih ht j

theorem drop_append_le : ∀ (xs ys : List Char) (i : Nat),
    i ≤ xs.length → (xs ++ ys).drop i = xs.drop i ++ ys := by
  intro xs
  induction xs with
  | nil =>
    intro ys i h
    have h0 : i = 0 := Nat.le_zero.mp (by simpa using h)
    subst h0
    simp
  | cons c t ih =>
    intro ys i h
    cases i with
    | zero => simp
    | succ j =>
      simp only [List.cons_append, List.drop_succ_cons]
      exact ih ys j (by simpa using h)

theorem dropWhile_append (p : Char → Bool) :
    ∀ (xs ys : List Char),
      (xs ++ ys).dropWhile p =
        if (xs.dropWhile p).isEmpty then ys.dropWhile p
        else xs.dropWhile p ++ ys := by
  intro xs
  induction xs with
  | nil => intro ys; simp
  | cons c t ih =>
    intro ys
    cases hc : p c with
    | true => simp [List.dropWhile_cons, hc, ih ys]
    | false => simp [List.dropWhile_cons, hc]

theorem trimWS_sandwich (s : List Char) :
    trimWS ('\n' :: s ++ ['\n']) = trimWS s := by
  unfold trimWS
  have h1 : (('\n' :: s ++ ['\n']).dropWhile isPySpace) =
      ((s ++ ['\n']).dropWhile isPySpace) := by
    simp [List.dropWhile_cons, isPySpace]
  rw [h1, dropWhile_append isPySpace s ['\n']]
  by_cases he : (s.dropWhile isPySpace).isEmpty = true
  · rw [if_pos he]
    have hsingle : (['\n'] : List Char).dropWhile isPySpace = [] := by
      simp [List.dropWhile_cons, isPySpace]
    rw [hsingle, List.isEmpty_iff.mp he]
  · rw [if_neg he]
    rw [List.reverse_append]
    have : (['\n'] : List Char).reverse = ['\n'] := rfl
    rw [this]
    have hcons : ('\n' :: (s.dropWhile isPySpace).reverse).dropWhile isPySpace =
        ((s.dropWhile isPySpace).reverse).dropWhile isPySpace := by
      simp [List.dropWhile_cons, isPySpace]
    rw [List.singleton_append, hcons]

theorem extractBody_blocks (b1 tail : List Char)
    (hb1 : findSub (lowerL endPat) (lowerL b1) = none) :
    extractBody (sdPat ++ '\n' :: b1 ++ '\n' :: (endPat ++ tail)) =
      some (trimWS b1) := by
  unfold extractBody
  have hsd : findCI sdPat (sdPat ++ '\n' :: b1 ++ '\n' :: (endPat ++ tail)) = some 0 := by
    unfold findCI lowerL
    rw [List.map_append]
    exact findSub_here (isPrefixL_append_self _ _)
  rw [hsd]
  dsimp only
  have hdrop : (sdPat ++ '\n' :: b1 ++ '\n' :: (endPat ++ tail)).drop (0 + sdPat.length) =
      '\n' :: b1 ++ '\n' :: (endPat ++ tail) := by
    rw [Nat.zero_add]
    exact List.drop_left _ _
  rw [hdrop]
  have hnl : Char.toLower '\n' = '\n' := rfl
  have hlow : lowerL ('\n' :: b1 ++ '\n' :: (endPat ++ tail)) =
      ('\n' :: lowerL b1 ++ ['\n']) ++ (lowerL endPat ++ lowerL tail) := by
    unfold lowerL
    simp [List.map_append, hnl, List.append_assoc]
  have hno : ∀ i, i < ('\n' :: lowerL b1 ++ ['\n']).length →
      isPrefixL (lowerL endPat)
        (((('\n' :: lowerL b1 ++ ['\n']) ++ (lowerL endPat ++ lowerL tail))).drop i) = false := by
    intro i hi
    cases i with
    | zero =>
      have hshape : ((('\n' :: lowerL b1 ++ ['\n']) ++ (lowerL endPat ++ lowerL tail))).drop 0 =
          '\n' :: ((lowerL b1 ++ ['\n']) ++ (lowerL endPat ++ lowerL tail)) := by
        simp
      rw [hshape]
      have hep : lowerL endPat = 'e' :: "nd state-delta".data := by decide
      rw [hep]
      exact isPrefixL_cons_ne _ _ (by decide)
    | succ j =>
      have hj : j ≤ (lowerL b1).length := by
        simp only [List.length_cons, List.length_append, List.length_nil] at hi
        omega
      have hshape : ((('\n' :: lowerL b1 ++ ['\n']) ++ (lowerL endPat ++ lowerL tail))).drop (j + 1) =
          (lowerL b1).drop j ++ '\n' :: (lowerL endPat ++ lowerL tail) := by
        have e1 : ('\n' :: lowerL b1 ++ ['\n']) ++ (lowerL endPat ++ lowerL tail) =
            '\n' :: (lowerL b1 ++ '\n' :: (lowerL endPat ++ lowerL tail)) := by
          simp [List.append_assoc]
        rw [e1, List.drop_succ_cons]
        exact drop_append_le _ _ j hj
      rw [hshape]
      cases hp : isPrefixL (lowerL endPat)
          ((lowerL b1).drop j ++ '\n' :: (lowerL endPat ++ lowerL tail)) with
      | false => rfl
      | true =>
        exfalso
        by_cases hlen : (lowerL endPat).length ≤ ((lowerL b1).drop j).length
        · have hpre := isPrefixL_of_le_append _ hp hlen
          have hnone := findSub_none_forall hb1 j
          rw [hnone] at hpre
          exact absurd hpre (by simp)
        · have hmem := isPrefixL_cross hp (by omega)
          exact absurd hmem (by decide)
  have hend : findCI endPat ('\n' :: b1 ++ '\n' :: (endPat ++ tail)) =
      some (b1.length + 2) := by
    unfold findCI
    rw [hlow]
    rw [findSub_shift _ _ _ hno]
    rw [findSub_here (isPrefixL_append_self (lowerL endPat) (lowerL tail))]
    simp only [Option.map_some', Option.some.injEq, List.length_cons,
      List.length_append, List.length_nil, lowerL, List.length_map]
    omega
  rw [hend]
  dsimp only
  have htake : ('\n' :: b1 ++ '\n' :: (endPat ++ tail)).take (b1.length + 2) =
      '\n' :: b1 ++ ['\n'] := by
    have e1 : '\n' :: b1 ++ '\n' :: (endPat ++ tail) =
        ('\n' :: b1 ++ ['\n']) ++ (endPat ++ tail) := by
      simp [List.append_assoc]
    rw [e1]
    have hlen2 : ('\n' :: b1 ++ ['\n']).length = b1.length + 2 := by
      simp [List.length_cons, List.length_append]
    rw [← hlen2]
    exact List.take_left _ _
  rw [htake, trimWS_sandwich]

/-- Claim C10: for a text consisting of two `STATE-DELTA ... END
STATE-DELTA` blocks, `parse_state_delta` returns the batch parsed from the
first (earliest) block only — the parse of the two-block text equals the
parse of the first block alone, whatever the second block's body is.  The
hypothesis states that the first body does not itself contain the
(case-insensitive) `END STATE-DELTA` marker, i.e. that it really is the
first block's body. -/
theorem C10_first_block_only (b1 b2 : List Char)
    (hb1 : findSub (lowerL endPat) (lowerL b1) = none) :
    parse_state_delta (String.mk (mkTwoBlocks b1 b2)) =
      parse_state_delta (String.mk (mkOneBlock b1)) := by
  have h2 : extractBody (String.mk (mkTwoBlocks b1 b2)).data = some (trimWS b1) := by
    show extractBody (mkTwoBlocks b1 b2) = some (trimWS b1)
    have hl : mkTwoBlocks b1 b2 =
        sdPat ++ '\n' :: b1 ++ '\n' ::
          (endPat ++ ('\n' :: (sdPat ++ '\n' :: b2 ++ '\n' :: endPat))) := by
      unfold mkTwoBlocks
      simp [List.append_assoc]
    rw [hl]
    exact extractBody_blocks b1 ('\n' :: (sdPat ++ '\n' :: b2 ++ '\n' :: endPat)) hb1
  have h1 : extractBody (String.mk (mkOneBlock b1)).data = some (trimWS b1) := by
    show extractBody (mkOneBlock b1) = some (trimWS b1)
    unfold mkOneBlock
    have hx := extractBody_blocks b1 [] hb1
    rw [List.append_nil] at hx
    exact hx
  unfold parse_state_delta
  rw [h1, h2]

/-! ### Dry-run / real-run change-line alignment -/

theorem strAppend_assoc (a b c : String) : a ++ b ++ c = a ++ (b ++ c) := by
  obtain ⟨la⟩ := a
  obtain ⟨lb⟩ := b
  obtain ⟨lc⟩ := c
  exact congrArg String.mk (List.append_assoc la lb lc)

theorem dryOfReal_scalar (eid rt : String) (cur nv a : Int) :
    dryOfReal ((eid, rt, 0), a) (realLineScalar eid rt cur nv) =
      dryLineScalar eid rt cur nv a := by
  unfold dryOfReal realLineScalar dryLineScalar
  simp only [strAppend_assoc]

theorem dryOfReal_slot (eid rt : String) (lvl cur nv a : Int) :
    dryOfReal ((eid, rt, lvl), a) (realLineSlot eid rt lvl cur nv) =
      dryLineSlot eid rt lvl cur nv a := by
  unfold dryOfReal realLineSlot dryLineSlot
  simp only [strAppend_assoc]

theorem dryOfReal_line (eid rt : String) (lvl cur a : Int) :
    dryOfReal ((eid, rt, lvl), a)
      (if isSpellish rt = true then realLineSlot eid rt lvl cur (max 0 (cur - a))
       else realLineScalar eid rt cur (max 0 (cur - a))) =
      (if isSpellish rt = true then dryLineSlot eid rt lvl cur (max 0 (cur - a)) a
       else dryLineScalar eid rt cur (max 0 (cur - a)) a) := by
  by_cases hsp : isSpellish rt = true
  · rw [if_pos hsp, if_pos hsp]
    exact dryOfReal_slot eid rt lvl cur (max 0 (cur - a)) a
  · rw [if_neg hsp, if_neg hsp]
    unfold dryOfReal realLineScalar dryLineScalar
    simp only [strAppend_assoc]

theorem tvSafe_targetOf {k : DKey} (h : k.2.1 ≠ "spell_slots") :
    TvSafe (targetOf k) := by
  unfold targetOf
  by_cases hsp : isSpellish k.2.1 = true
  · rw [if_pos hsp]
    trivial
  · rw [if_neg hsp]
    exact h

theorem isSome_setA_preserve {κ α : Type} [DecidableEq κ] {l : List (κ × α)}
    {k : κ} (v : α) (hk : (lookupA l k).isSome = true) :
    ∀ k', (lookupA (setA l k v) k').isSome = (lookupA l k').isSome := by
  intro k'
  by_cases h : k' = k
  · subst h
    rw [lookupA_setA_self, hk]
    rfl
  · rw [lookupA_setA_ne l k v h]

theorem targetValue_putResources_ne {t : Target} {eid : String}
    (hne : eidOf t ≠ eid) (d : StateDoc) (ent : Entity)
    (rs' : List (String × RVal)) :
    targetValue (putResources d eid ent rs') t = targetValue d t := by
  unfold targetValue
  rw [entityRes_putResources_ne hne]

theorem targetValue_putResources_eid {t : Target} {eid : String}
    (heq : eidOf t = eid) (d : StateDoc) (ent : Entity)
    (rs' : List (String × RVal)) :
    targetValue (putResources d eid ent rs') t = resTargetValue rs' t := by
  unfold targetValue
  rw [heq, entityRes_putResources_self]

theorem targetValue_eq_res {d : StateDoc} {eid : String} {ent : Entity}
    (hent : lookupA d.entities eid = some ent) (t : Target) (he : eidOf t = eid) :
    targetValue d t = resTargetValue (ent.resources.getD []) t := by
  rw [targetValue, he, entityRes_some hent]

theorem resTV_scalar_write {rs : List (String × RVal)} {rt : String} {nv : Int}
    (hrt : rt ≠ "spell_slots") :
    ∀ t : Target, TvSafe t → (∀ e r', t = Target.scalar e r' → r' ≠ rt) →
      resTargetValue (setA rs rt (RVal.int nv)) t = resTargetValue rs t := by
  intro t hts hne
  cases t with
  | scalar e r =>
    have hr : r ≠ rt := hne e r rfl
    simp only [resTargetValue]
    rw [lookupA_setA_ne rs rt _ hr]
  | slot e l =>
    simp only [resTargetValue]
    rw [lookupA_setA_ne rs rt _ (fun hh => hrt hh.symm)]

theorem resTV_ensure_slots {rs : List (String × RVal)}
    (hlk : lookupA rs "spell_slots" = none) :
    ∀ t : Target, TvSafe t →
      resTargetValue (setA rs "spell_slots" (RVal.table [])) t =
        resTargetValue rs t := by
  intro t hts
  cases t with
  | scalar e r =>
    unfold TvSafe at hts
    simp only [resTargetValue]
    rw [lookupA_setA_ne rs _ _ hts]
  | slot e l =>
    simp only [resTargetValue]
    rw [lookupA_setA_self, hlk]
    simp [lookupA]

theorem resTV_slot_write {rs : List (String × RVal)} {m : List (String × Int)}
    {lvlStr : String} {nv : Int}
    (hlk : lookupA rs "spell_slots" = some (RVal.table m)) :
    ∀ t : Target, TvSafe t → (∀ e l, t = Target.slot e l → l ≠ lvlStr) →
      resTargetValue (setA rs "spell_slots" (RVal.table (setA m lvlStr nv))) t =
        resTargetValue rs t := by
  intro t hts hne
  cases t with
  | scalar e r =>
    unfold TvSafe at hts
    simp only [resTargetValue]
    rw [lookupA_setA_ne rs _ _ hts]
  | slot e l =>
    have hl : l ≠ lvlStr := hne e l rfl
    simp only [resTargetValue]
    rw [lookupA_setA_self, hlk]
    dsimp only
    rw [lookupA_setA_ne m lvlStr _ hl]

theorem applyOne_dry_step {d : StateDoc} {c : List String} {eid rt : String}
    {lvl a : Int} {d' : StateDoc} {c' : List String} {cur : Int}
    (hent : (lookupA d.entities eid).isSome = true)
    (hcur : targetValue d (targetOf (eid, rt, lvl)) = some cur)
    (h : applyOne true (d, c) ((eid, rt, lvl), a) = .ok (d', c')) :
    c' = c ++ [if isSpellish rt = true
               then dryLineSlot eid rt lvl cur (max 0 (cur - a)) a
               else dryLineScalar eid rt cur (max 0 (cur - a)) a] ∧
    (∀ t, TvSafe t → targetValue d' t = targetValue d t) ∧
    (∀ e, (lookupA d'.entities e).isSome = (lookupA d.entities e).isSome) := by
  obtain ⟨ent, hent'⟩ := Option.isSome_iff_exists.mp hent
  have hcur' : resTargetValue (ent.resources.getD [])
      (targetOf (eid, rt, lvl)) = some cur := by
    rw [targetValue_eq_res hent' _ (eidOf_targetOf _)] at hcur
    exact hcur
  unfold applyOne at h
  dsimp only at h
  rw [hent'] at h
  unfold applyOneExisting at h
  rw [hent'] at h
  simp only [Option.getD_some] at h
  by_cases hsp : isSpellish rt = true
  · have htgt : targetOf (eid, rt, lvl) = Target.slot eid (toString lvl) := by
      simp [targetOf, hsp]
    cases hlk : lookupA (ent.resources.getD []) "spell_slots" with
    | none =>
      rw [applyOneCore_spell_none hsp hlk, if_pos rfl] at h
      simp only [Except.ok.injEq, Prod.mk.injEq] at h
      obtain ⟨hd, hc⟩ := h
      have hc0 : cur = 0 := by
        rw [htgt] at hcur'
        simp only [resTargetValue, hlk] at hcur'
        exact (Option.some.inj hcur').symm
      subst hc0
      refine ⟨by rw [← hc, if_pos hsp], ?_, ?_⟩
      · intro t hts
        by_cases he : eidOf t = eid
        · rw [← hd, targetValue_putResources_eid he,
              targetValue_eq_res hent' t he]
          exact resTV_ensure_slots hlk t hts
        · rw [← hd, targetValue_putResources_ne he]
      · intro e
        rw [← hd]
        exact isSome_setA_preserve _ hent e
    | some rv =>
      cases rv with
      | int n =>
        exfalso
        rw [htgt] at hcur'
        simp only [resTargetValue, hlk] at hcur'
        exact Option.noConfusion hcur'
      | table m =>
        rw [applyOneCore_spell_table hsp hlk, if_pos rfl] at h
        simp only [Except.ok.injEq, Prod.mk.injEq] at h
        obtain ⟨hd, hc⟩ := h
        have hcm : cur = (lookupA m (toString lvl)).getD 0 := by
          rw [htgt] at hcur'
          simp only [resTargetValue, hlk] at hcur'
          exact (Option.some.inj hcur').symm
        subst hcm
        refine ⟨by rw [← hc, if_pos hsp], ?_, ?_⟩
        · intro t hts
          by_cases he : eidOf t = eid
          · rw [← hd, targetValue_putResources_eid he,
                targetValue_eq_res hent' t he]
          · rw [← hd, targetValue_putResources_ne he]
        · intro e
          rw [← hd]
          exact isSome_setA_preserve _ hent e
  · have hsp' : isSpellish rt = false := by
      cases hb : isSpellish rt
      · rfl
      · exact absurd hb hsp
    have htgt : targetOf (eid, rt, lvl) = Target.scalar eid rt := by
      simp [targetOf, hsp']
    cases hlk : lookupA (ent.resources.getD []) rt with
    | none =>
      rw [applyOneCore_scalar_none hsp' hlk, if_pos rfl] at h
      simp only [Except.ok.injEq, Prod.mk.injEq] at h
      obtain ⟨hd, hc⟩ := h
      have hc0 : cur = 0 := by
        rw [htgt] at hcur'
        simp only [resTargetValue, hlk] at hcur'
        exact (Option.some.inj hcur').symm
      subst hc0
      refine ⟨by rw [← hc, if_neg hsp], ?_, ?_⟩
      · intro t hts
        by_cases he : eidOf t = eid
        · rw [← hd, targetValue_putResources_eid he,
              targetValue_eq_res hent' t he]
        · rw [← hd, targetValue_putResources_ne he]
      · intro e
        rw [← hd]
        exact isSome_setA_preserve _ hent e
    | some rv =>
      cases rv with
      | table m =>
        exfalso
        rw [htgt] at hcur'
        simp only [resTargetValue, hlk] at hcur'
        exact Option.noConfusion hcur'
      | int n =>
        rw [applyOneCore_scalar_int hsp' hlk, if_pos rfl] at h
        simp only [Except.ok.injEq, Prod.mk.injEq] at h
        obtain ⟨hd, hc⟩ := h
        have hcn : cur = n := by
          rw [htgt] at hcur'
          simp only [resTargetValue, hlk] at hcur'
          exact (Option.some.inj hcur').symm
        subst hcn
        refine ⟨by rw [← hc, if_neg hsp], ?_, ?_⟩
        · intro t hts
          by_cases he : eidOf t = eid
          · rw [← hd, targetValue_putResources_eid he,
                targetValue_eq_res hent' t he]
          · rw [← hd, targetValue_putResources_ne he]
        · intro e
          rw [← hd]
          exact isSome_setA_preserve _ hent e

theorem applyOne_real_step {d : StateDoc} {c : List String} {eid rt : String}
    {lvl a : Int} {d' : StateDoc} {c' : List String} {cur : Int}
    (hent : (lookupA d.entities eid).isSome = true)
    (hcur : targetValue d (targetOf (eid, rt, lvl)) = some cur)
    (hrt : rt ≠ "spell_slots")
    (h : applyOne false (d, c) ((eid, rt, lvl), a) = .ok (d', c')) :
    c' = c ++ [if isSpellish rt = true
               then realLineSlot eid rt lvl cur (max 0 (cur - a))
               else realLineScalar eid rt cur (max 0 (cur - a))] ∧
    (∀ t, TvSafe t → t ≠ targetOf (eid, rt, lvl) →
       targetValue d' t = targetValue d t) ∧
    (∀ e, (lookupA d'.entities e).isSome = (lookupA d.entities e).isSome) := by
  obtain ⟨ent, hent'⟩ := Option.isSome_iff_exists.mp hent
  have hcur' : resTargetValue (ent.resources.getD [])
      (targetOf (eid, rt, lvl)) = some cur := by
    rw [targetValue_eq_res hent' _ (eidOf_targetOf _)] at hcur
    exact hcur
  unfold applyOne at h
  dsimp only at h
  rw [hent'] at h
  unfold applyOneExisting at h
  rw [hent'] at h
  simp only [Option.getD_some] at h
  by_cases hsp : isSpellish rt = true
  · have htgt : targetOf (eid, rt, lvl) = Target.slot eid (toString lvl) := by
      simp [targetOf, hsp]
    cases hlk : lookupA (ent.resources.getD []) "spell_slots" with
    | none =>
      rw [applyOneCore_spell_none hsp hlk, if_neg (by simp)] at h
      simp only [Except.ok.injEq, Prod.mk.injEq] at h
      obtain ⟨hd, hc⟩ := h
      have hc0 : cur = 0 := by
        rw [htgt] at hcur'
        simp only [resTargetValue, hlk] at hcur'
        exact (Option.some.inj hcur').symm
      subst hc0
      refine ⟨by rw [← hc, if_pos hsp], ?_, ?_⟩
      · intro t hts hnt
        by_cases he : eidOf t = eid
        · rw [← hd, targetValue_putResources_eid he,
              targetValue_eq_res hent' t he]
          rw [resTV_slot_write (lookupA_setA_self _ _ _) t hts ?hl]
          · exact resTV_ensure_slots hlk t hts
          · intro e2 l2 heq hl2
            apply hnt
            have he2 : e2 = eid := by rw [heq] at he; exact he
            rw [htgt, heq, he2, hl2]
        · rw [← hd, targetValue_putResources_ne he]
      · intro e
        rw [← hd]
        exact isSome_setA_preserve _ hent e
    | some rv =>
      cases rv with
      | int n =>
        exfalso
        rw [htgt] at hcur'
        simp only [resTargetValue, hlk] at hcur'
        exact Option.noConfusion hcur'
      | table m =>
        rw [applyOneCore_spell_table hsp hlk, if_neg (by simp)] at h
        simp only [Except.ok.injEq, Prod.mk.injEq] at h
        obtain ⟨hd, hc⟩ := h
        have hcm : cur = (lookupA m (toString lvl)).getD 0 := by
          rw [htgt] at hcur'
          simp only [resTargetValue, hlk] at hcur'
          exact (Option.some.inj hcur').symm
        subst hcm
        refine ⟨by rw [← hc, if_pos hsp], ?_, ?_⟩
        · intro t hts hnt
          by_cases he : eidOf t = eid
          · rw [← hd, targetValue_putResources_eid he,
                targetValue_eq_res hent' t he]
            refine resTV_slot_write hlk t hts ?_
            intro e2 l2 heq hl2
            apply hnt
            have he2 : e2 = eid := by rw [heq] at he; exact he
            rw [htgt, heq, he2, hl2]
          · rw [← hd, targetValue_putResources_ne he]
        · intro e
          rw [← hd]
          exact isSome_setA_preserve _ hent e
  · have hsp' : isSpellish rt = false := by
      cases hb : isSpellish rt
      · rfl
      · exact absurd hb hsp
    have htgt : targetOf (eid, rt, lvl) = Target.scalar eid rt := by
      simp [targetOf, hsp']
    cases hlk : lookupA (ent.resources.getD []) rt with
    | none =>
      rw [applyOneCore_scalar_none hsp' hlk, if_neg (by simp)] at h
      simp only [Except.ok.injEq, Prod.mk.injEq] at h
      obtain ⟨hd, hc⟩ := h
      have hc0 : cur = 0 := by
        rw [htgt] at hcur'
        simp only [resTargetValue, hlk] at hcur'
        exact (Option.some.inj hcur').symm
      subst hc0
      refine ⟨by rw [← hc, if_neg hsp], ?_, ?_⟩
      · intro t hts hnt
        by_cases he : eidOf t = eid
        · rw [← hd, targetValue_putResources_eid he,
              targetValue_eq_res hent' t he]
          refine resTV_scalar_write hrt t hts ?_
          intro e2 r2 heq hr2
          apply hnt
          have he2 : e2 = eid := by rw [heq] at he; exact he
          rw [htgt, heq, he2, hr2]
        · rw [← hd, targetValue_putResources_ne he]
      · intro e
        rw [← hd]
        exact isSome_setA_preserve _ hent e
    | some rv =>
      cases rv with
      | table m =>
        exfalso
        rw [htgt] at hcur'
        simp only [resTargetValue, hlk] at hcur'
        exact Option.noConfusion hcur'
      | int n =>
        rw [applyOneCore_scalar_int hsp' hlk, if_neg (by simp)] at h
        simp only [Except.ok.injEq, Prod.mk.injEq] at h
        obtain ⟨hd, hc⟩ := h
        have hcn : cur = n := by
          rw [htgt] at hcur'
          simp only [resTargetValue, hlk] at hcur'
          exact (Option.some.inj hcur').symm
        subst hcn
        refine ⟨by rw [← hc, if_neg hsp], ?_, ?_⟩
        · intro t hts hnt
          by_cases he : eidOf t = eid
          · rw [← hd, targetValue_putResources_eid he,
                targetValue_eq_res hent' t he]
            refine resTV_scalar_write hrt t hts ?_
            intro e2 r2 heq hr2
            apply hnt
            have he2 : e2 = eid := by rw [heq] at he; exact he
            rw [htgt, heq, he2, hr2]
          · rw [← hd, targetValue_putResources_ne he]
        · intro e
          rw [← hd]
          exact isSome_setA_preserve _ hent e

theorem applyAll_align :
    ∀ (b : Batch) (d1 d2 : StateDoc) (c1 c2 : List String)
      (r1 r2 : StateDoc × List String),
      applyAll true (d1, c1) b = .ok r1 →
      applyAll false (d2, c2) b = .ok r2 →
      (∀ kv ∈ b, (lookupA d1.entities kv.1.1).isSome = true) →
      (∀ kv ∈ b, (lookupA d2.entities kv.1.1).isSome = true) →
      (∀ kv ∈ b, targetValue d1 (targetOf kv.1) = targetValue d2 (targetOf kv.1)) →
      (∀ kv ∈ b, kv.1.2.1 ≠ "spell_slots") →
      targetsDistinct b = true →
      ∃ L : List String, r1.2 = c1 ++ List.zipWith dryOfReal b L ∧
        r2.2 = c2 ++ L ∧ L.length = b.length := by
  intro b
  induction b with
  | nil =>
    intro d1 d2 c1 c2 r1 r2 h1 h2 _ _ _ _ _
    simp only [applyAll, Except.ok.injEq] at h1 h2
    exact ⟨[], by rw [← h1]; simp, by rw [← h2]; simp, rfl⟩
  | cons kv rest ih =>
    intro d1 d2 c1 c2 r1 r2 h1 h2 he1 he2 htv hns hdis
    obtain ⟨⟨eid, rt, lvl⟩, a⟩ := kv
    simp only [applyAll] at h1 h2
    cases hs1 : applyOne true (d1, c1) ((eid, rt, lvl), a) with
    | error e => rw [hs1] at h1; simp at h1
    | ok acc1 =>
      rw [hs1] at h1
      obtain ⟨d1', c1'⟩ := acc1
      cases hs2 : applyOne false (d2, c2) ((eid, rt, lvl), a) with
      | error e => rw [hs2] at h2; simp at h2
      | ok acc2 =>
        rw [hs2] at h2
        obtain ⟨d2', c2'⟩ := acc2
        have hent1 := he1 _ (List.mem_cons_self _ _)
        have hent2 := he2 _ (List.mem_cons_self _ _)
        have htv0 := htv _ (List.mem_cons_self _ _)
        have hns0 := hns _ (List.mem_cons_self _ _)
        obtain ⟨cur, hcur2, -⟩ := applyOne_value hs2
        have hcur2' : targetValue d2 (targetOf (eid, rt, lvl)) = some cur := hcur2
        have hcur1 : targetValue d1 (targetOf (eid, rt, lvl)) = some cur := by
          rw [htv0]
          exact hcur2'
        obtain ⟨hline1, hframe1, hents1⟩ := applyOne_dry_step hent1 hcur1 hs1
        obtain ⟨hline2, hframe2, hents2⟩ := applyOne_real_step hent2 hcur2' hns0 hs2
        have hdis2 : (rest.all fun kv2 =>
            decide (targetOf kv2.1 ≠ targetOf ((eid, rt, lvl) : DKey))) = true ∧
            targetsDistinct rest = true := by
          have hd := hdis
          unfold targetsDistinct at hd
          simp only [Bool.and_eq_true] at hd
          exact hd
        have hdneq : ∀ kv2 ∈ rest, targetOf kv2.1 ≠ targetOf ((eid, rt, lvl) : DKey) := by
          intro kv2 hkv2
          have h3 := List.all_eq_true.mp hdis2.1 kv2 hkv2
          simpa using h3
        have hrest := ih d1' d2' c1' c2' r1 r2 h1 h2
          (fun kv2 hkv2 => by
            rw [hents1]
            exact he1 kv2 (List.mem_cons_of_mem _ hkv2))
          (fun kv2 hkv2 => by
            rw [hents2]
            exact he2 kv2 (List.mem_cons_of_mem _ hkv2))
          (fun kv2 hkv2 => by
            rw [hframe1 _ (tvSafe_targetOf (hns kv2 (List.mem_cons_of_mem _ hkv2)))]
            rw [hframe2 _ (tvSafe_targetOf (hns kv2 (List.mem_cons_of_mem _ hkv2)))
                  (hdneq kv2 hkv2)]
            exact htv kv2 (List.mem_cons_of_mem _ hkv2))
          (fun kv2 hkv2 => hns kv2 (List.mem_cons_of_mem _ hkv2))
          hdis2.2
        obtain ⟨L, hL1, hL2, hLlen⟩ := hrest
        refine ⟨(if isSpellish rt = true
                 then realLineSlot eid rt lvl cur (max 0 (cur - a))
                 else realLineScalar eid rt cur (max 0 (cur - a))) :: L, ?_, ?_, ?_⟩
        · rw [hL1, hline1, List.zipWith_cons_cons, dryOfReal_line]
          simp [List.append_assoc]
        · rw [hL2, hline2]
          simp [List.append_assoc]
        · simp [hLlen]

/-- Claim C3 (counterexample): on the entity `e1` with `ki = 5` and the
single delta `(e1, ki, 0) ↦ 2`, the dry-run change line is
`"DRY-RUN: e1 ki: 5 -> 3 (subtract 2)"` while the real-run line is
`"e1 ki: 5 -> 3"`: the two lists do not differ only by the `DRY-RUN`
marker prefix — the dry line also carries a `" (subtract 2)"` suffix. -/
theorem C3_counterexample :
    (apply_delta "T" true true fsKi5 mgrKi5 [(("e1", "ki", 0), 2)] true).2.2 =
      .ok ⟨docKi5, ["DRY-RUN: e1 ki: 5 -> 3 (subtract 2)"], false⟩ ∧
    (apply_delta "T" true true fsKi5 mgrKi5 [(("e1", "ki", 0), 2)] false).2.2 =
      .ok ⟨⟨[("e1", ⟨some [("ki", RVal.int 3)], []⟩)], [],
            [("last_updated", "T")]⟩, ["e1 ki: 5 -> 3"], true⟩ ∧
    ¬ (["DRY-RUN: e1 ki: 5 -> 3 (subtract 2)"] =
        ["e1 ki: 5 -> 3"].map (fun s => "DRY-RUN: " ++ s)) := by
  refine ⟨rfl, rfl, by decide⟩

/-- Claim C3 (amended): for every store state and every delta batch whose
entities all exist in the state, whose write targets are pairwise distinct,
and none of whose entries names the literal scalar resource
`"spell_slots"`, a dry-run call and a real call starting from the same
state and deltas produce change lists of equal length whose entries
correspond line by line: each dry-run line is the real line wrapped with
the `"DRY-RUN: "` marker prefix and a `" (subtract <amount>)"` suffix. -/
theorem C3_dry_real_changes_amended (now : String) (writeOk renameOk : Bool)
    (fs : FS) (mgr : Manager) (b : Batch) (rd rr : ApplyResult)
    (hd : (apply_delta now writeOk renameOk fs mgr b true).2.2 = .ok rd)
    (hr : (apply_delta now writeOk renameOk fs mgr b false).2.2 = .ok rr)
    (hent : entitiesOK mgr b = true)
    (hdis : targetsDistinct b = true)
    (hns : noSlotsName b = true) :
    rd.changes = List.zipWith dryOfReal b rr.changes ∧
    rr.changes.length = b.length := by
  cases happ1 : applyAll true (mgr.state, []) b with
  | error e => simp [apply_delta, happ1] at hd
  | ok acc1 =>
    obtain ⟨u1, ch1⟩ := acc1
    have hrd : rd = ⟨mgr.state, ch1, false⟩ := by
      simp [apply_delta, happ1] at hd
      exact hd.symm
    cases happ2 : applyAll false (mgr.state, []) b with
    | error e => simp [apply_delta, happ2] at hr
    | ok acc2 =>
      obtain ⟨u2, ch2⟩ := acc2
      cases hb : create_backup now fs with
      | error e => simp [apply_delta, happ2, hb] at hr
      | ok p =>
        obtain ⟨fs1, name⟩ := p
        cases hs : save_state now writeOk renameOk fs1 u2 with
        | error e => simp [apply_delta, happ2, hb, hs] at hr
        | ok q =>
          obtain ⟨fs2, st⟩ := q
          have hrr : rr = ⟨st, ch2, true⟩ := by
            simp [apply_delta, happ2, hb, hs] at hr
            exact hr.symm
          have hentm : ∀ kv ∈ b, (lookupA mgr.state.entities kv.1.1).isSome = true := by
            intro kv hkv
            have := List.all_eq_true.mp hent kv hkv
            simpa using this
          have hnsm : ∀ kv ∈ b, kv.1.2.1 ≠ "spell_slots" := by
            intro kv hkv
            have := List.all_eq_true.mp hns kv hkv
            simpa using this
          obtain ⟨L, hL1, hL2, hLlen⟩ := applyAll_align b mgr.state mgr.state [] []
            (u1, ch1) (u2, ch2) happ1 happ2 hentm hentm (fun _ _ => rfl) hnsm hdis
          simp only at hL1 hL2
          subst hrd
          subst hrr
          simp only at hL1 hL2 ⊢
          rw [List.nil_append] at hL1 hL2
          subst hL1
          subst hL2
          exact ⟨rfl, hLlen⟩

/-- Witness for C1: the clamp theorem applied to the `ki = 5` fixture with
a real-mode subtraction of 2. -/
theorem C1_apply_delta_clamps_witness :
    (∀ v : Int,
       ValIn (⟨[("e1", ⟨some [("ki", RVal.int 3)], []⟩)], [],
               [("last_updated", "T")]⟩ : StateDoc) v →
       0 ≤ v ∨ ValIn mgrKi5.state v) ∧
    (∃ cur, targetValue mgrKi5.state (targetOf ("e1", "ki", 0)) = some cur ∧
       targetValue (⟨[("e1", ⟨some [("ki", RVal.int 3)], []⟩)], [],
                     [("last_updated", "T")]⟩ : StateDoc)
           (targetOf ("e1", "ki", 0)) = some (max 0 (cur - 2))) :=
  ⟨C1_apply_delta_clamps.1 "T" true true fsKi5 mgrKi5 [(("e1", "ki", 0), 2)]
     false ⟨⟨[("e1", ⟨some [("ki", RVal.int 3)], []⟩)], [],
             [("last_updated", "T")]⟩, ["e1 ki: 5 -> 3"], true⟩ rfl,
   C1_apply_delta_clamps.2 "T" true true fsKi5 mgrKi5 "e1" "ki" 0 2
     ⟨⟨[("e1", ⟨some [("ki", RVal.int 3)], []⟩)], [],
       [("last_updated", "T")]⟩, ["e1 ki: 5 -> 3"], true⟩ rfl⟩

/-- Witness for C2: a block with one malformed line parses without raising
(the malformed line is skipped). -/
theorem C2_no_raise_amended_witness :
    ((blockLines exSkippedText).all (fun l => ! lineRaises l)) = true ∧
    ∃ b, parse_state_delta exSkippedText = .ok b :=
  ⟨by decide, C2_no_raise_amended.1 exSkippedText (by decide)⟩

/-- Witness for C3 (amended): the aligned dry/real change lists on the
`ki = 5` fixture. -/
theorem C3_dry_real_changes_amended_witness :
    (⟨docKi5, ["DRY-RUN: e1 ki: 5 -> 3 (subtract 2)"], false⟩ :
        ApplyResult).changes =
      List.zipWith dryOfReal [(("e1", "ki", 0), 2)]
        ((⟨⟨[("e1", ⟨some [("ki", RVal.int 3)], []⟩)], [],
            [("last_updated", "T")]⟩, ["e1 ki: 5 -> 3"], true⟩ :
          ApplyResult)).changes ∧
    ((⟨⟨[("e1", ⟨some [("ki", RVal.int 3)], []⟩)], [],
        [("last_updated", "T")]⟩, ["e1 ki: 5 -> 3"], true⟩ :
      ApplyResult)).changes.length = ([(("e1", "ki", 0), 2)] : Batch).length :=
  C3_dry_real_changes_amended "T" true true fsKi5 mgrKi5 [(("e1", "ki", 0), 2)]
    ⟨docKi5, ["DRY-RUN: e1 ki: 5 -> 3 (subtract 2)"], false⟩
    ⟨⟨[("e1", ⟨some [("ki", RVal.int 3)], []⟩)], [],
      [("last_updated", "T")]⟩, ["e1 ki: 5 -> 3"], true⟩
    rfl rfl (by decide) (by decide) (by decide)

/-- Witness for C6: a failing temp-file write leaves the manager and the
backing file untouched. -/
theorem C6_save_failure_atomic_witness :
    (apply_delta "T" false true fsKi5 mgrKi5 [] false).2.1 = mgrKi5 ∧
    (apply_delta "T" false true fsKi5 mgrKi5 [] false).1.file = fsKi5.file :=
  C6_save_failure_atomic "T" false true fsKi5 mgrKi5 []
    "Failed to save state: write" rfl

/-- Witness for C7 (amended): saving a document whose metadata holds only
`version` stamps `last_updated` and keeps `version`. -/
theorem C7_save_metadata_amended_witness :
    lookupA ((⟨⟨[], [], [("version", "1.0"), ("last_updated", "T")]⟩, [],
               true⟩ : ApplyResult)).state.metadata "last_updated" = some "T" ∧
    lookupA ((⟨⟨[], [], [("version", "1.0"), ("last_updated", "T")]⟩, [],
               true⟩ : ApplyResult)).state.metadata "version" =
      lookupA ((⟨⟨[], [], [("version", "1.0")]⟩⟩ : Manager)).state.metadata "version" ∧
    (apply_delta "T" true true ⟨some ⟨[], [], [("version", "1.0")]⟩, []⟩
        ⟨⟨[], [], [("version", "1.0")]⟩⟩ [] false).1.file =
      some ((⟨⟨[], [], [("version", "1.0"), ("last_updated", "T")]⟩, [],
              true⟩ : ApplyResult)).state :=
  C7_save_metadata_amended "T" true true ⟨some ⟨[], [], [("version", "1.0")]⟩, []⟩
    ⟨⟨[], [], [("version", "1.0")]⟩⟩ []
    ⟨⟨[], [], [("version", "1.0"), ("last_updated", "T")]⟩, [], true⟩ rfl

/-- Witness for C8: the summation law instantiated on the duplicate-line
example. -/
theorem C8_duplicate_keys_accumulate_witness :
    ∀ k : DKey, (lookupA ([(("e1", "rage", 0), 2)] : Batch) k).getD 0 =
      sumKey k (collectEntries (blockLines exDupText)) :=
  C8_duplicate_keys_accumulate.1 exDupText [(("e1", "rage", 0), 2)] rfl

/-- Witness for C9: the leveled-routing clauses instantiated on the
`ki = 5` fixture. -/
theorem C9_bare_spell_slot_is_leveled_witness :
    ((∃ cur, targetValue docKi5 (Target.slot "e1" "0") = some cur ∧
        targetValue (⟨[("e1", ⟨some [("ki", RVal.int 5),
            ("spell_slots", RVal.table [("0", 0)])], []⟩)], [], []⟩ : StateDoc)
          (Target.slot "e1" "0") = some (max 0 (cur - 2))) ∧
     (∀ rt' : String, rt' ≠ "spell_slots" →
        lookupA (entityRes (⟨[("e1", ⟨some [("ki", RVal.int 5),
            ("spell_slots", RVal.table [("0", 0)])], []⟩)], [], []⟩ : StateDoc) "e1") rt' =
          lookupA (entityRes docKi5 "e1") rt')) ∧
    check_resource_availability mgrKi5 "e1" "spell_slot" 1 0 =
      .ok (decide ((1 : Int) ≤ 0)) :=
  ⟨C9_bare_spell_slot_is_leveled.2.1 (docKi5, []) "e1" 2
     ⟨[("e1", ⟨some [("ki", RVal.int 5),
         ("spell_slots", RVal.table [("0", 0)])], []⟩)], [], []⟩
     ["e1 spell_slot.0: 0 -> 0"] rfl,
   C9_bare_spell_slot_is_leveled.2.2 mgrKi5 "e1" 1 0 0 rfl⟩

/-- Witness for C10: a concrete two-block text parses identically to its
first block alone. -/
theorem C10_first_block_only_witness :
    findSub (lowerL endPat) (lowerL "- a: x -= 1".data) = none ∧
    parse_state_delta
        (String.mk (mkTwoBlocks "- a: x -= 1".data "- b: y -= 2".data)) =
      parse_state_delta (String.mk (mkOneBlock "- a: x -= 1".data)) :=
  ⟨by decide, C10_first_block_only "- a: x -= 1".data "- b: y -= 2".data (by decide)⟩
